import Mathlib

/-!
Verification development for the `google-chatbot` repository (`src/index.js`).

The JavaScript source is shallowly embedded: strings are manipulated as
`List Char`, JSON values as the inductive `JVal`, network calls as explicit
oracle parameters, and exceptions as `Except String`.
-/

namespace ChatBot

/-! ## JavaScript string primitives -/

/-- Model of the JavaScript whitespace class `\s` (restricted to the ASCII
whitespace characters; chat text never contains the exotic Unicode spaces). -/
def jsWs (c : Char) : Bool :=
  c = ' ' || c = '\t' || c = '\n' || c = '\r' || c = '\x0b' || c = '\x0c'

/-- Model of the JavaScript word-character class `\w`, i.e. `[A-Za-z0-9_]`. -/
def jsWord (c : Char) : Bool :=
  ('a' ≤ c && c ≤ 'z') || ('A' ≤ c && c ≤ 'Z') || ('0' ≤ c && c ≤ '9') || c = '_'

/-- `toLowerCase` on a character list. -/
def lowerList (l : List Char) : List Char := l.map Char.toLower

/-- `toLowerCase` on a string. -/
def lowerStr (s : String) : String := ⟨lowerList s.data⟩

/-- JavaScript `String.prototype.trim` on a character list. -/
def jsTrim (l : List Char) : List Char :=
  ((l.dropWhile jsWs).reverse.dropWhile jsWs).reverse

/-- JavaScript `String.prototype.trim` on a string. -/
def jsTrimS (s : String) : String := ⟨jsTrim s.data⟩

/-- `dropWhile` never lengthens a list. -/
theorem dropWhile_len_le {α : Type} (p : α → Bool) (l : List α) :
    (l.dropWhile p).length ≤ l.length := by
  induction l with
  | nil => simp
  | cons a t ih =>
    rw [List.dropWhile_cons]
    split
    · exact Nat.le_trans ih (Nat.le_succ _)
    · exact Nat.le_refl _

/-! ## A generic model of the global `String.prototype.replace`

A global regex replace scans left to right.  At each position the `step`
function either reports no match (`none`: the current character is kept and
the scan advances one character) or a match (`some (out, rest2)`: the match
is replaced by the characters `out` and the scan resumes at `rest2`, the
remainder after the match).  Every match consumes at least the current
character, so the scan shortens the list at every step; the `fuel` argument
(instantiated with the length of the list) only makes that termination
argument structural and is never exhausted. -/

/-- Fuel-indexed scanner. -/
def scanGo (step : Char → List Char → Option (List Char × List Char)) :
    Nat → List Char → List Char
  | 0, l => l
  | _ + 1, [] => []
  | fuel + 1, c :: rest =>
    match step c rest with
    | some (out, rest2) => out ++ scanGo step fuel rest2
    | none => c :: scanGo step fuel rest

/-- Left-to-right global regex replace driven by `step`. -/
def scanReplace (step : Char → List Char → Option (List Char × List Char))
    (l : List Char) : List Char :=
  scanGo step l.length l

/-- A step function is *shrinking* when the remainder it returns is no longer
than the list after the current character.  All the concrete regexes below
are shrinking. -/
def Shrinking (step : Char → List Char → Option (List Char × List Char)) : Prop :=
  ∀ c rest out rest2, step c rest = some (out, rest2) → rest2.length ≤ rest.length

/-- With enough fuel, the fuel-indexed scanner computes `scanReplace`. -/
theorem scanGo_eq {step : Char → List Char → Option (List Char × List Char)}
    (hs : Shrinking step) :
    ∀ fuel l, l.length ≤ fuel → scanGo step fuel l = scanReplace step l := by
  intro fuel
  induction fuel using Nat.strong_induction_on with
  | _ fuel ih =>
    intro l hl
    match fuel, l with
    | 0, l =>
      have : l = [] := List.eq_nil_of_length_eq_zero (Nat.le_zero.mp hl)
      subst this
      rfl
    | fuel + 1, [] => rfl
    | fuel + 1, c :: rest =>
      show scanGo step (fuel + 1) (c :: rest) = scanGo step (c :: rest).length (c :: rest)
      simp only [scanGo, List.length_cons]
      cases hstep : step c rest with
      | some p =>
        obtain ⟨out, rest2⟩ := p
        have hlen : rest2.length ≤ rest.length := hs c rest out rest2 hstep
        have h1 : scanGo step fuel rest2 = scanReplace step rest2 :=
          ih fuel (Nat.lt_succ_self _) rest2
            (Nat.le_trans hlen (by simpa using Nat.succ_le_succ_iff.mp hl))
        have h2 : scanGo step rest.length rest2 = scanReplace step rest2 :=
          ih rest.length (by simp at hl; omega) rest2 hlen
        simp [h1, h2]
      | none =>
        have hrest : rest.length ≤ fuel := by simp at hl; omega
        have h1 : scanGo step fuel rest = scanReplace step rest := ih fuel (Nat.lt_succ_self _) rest hrest
        have h2 : scanGo step rest.length rest = scanReplace step rest :=
          ih rest.length (by omega) rest (Nat.le_refl _)
        simp [h1, h2]

/-- The natural defining equation of `scanReplace` on a cons cell. -/
theorem scanReplace_cons {step : Char → List Char → Option (List Char × List Char)}
    (hs : Shrinking step) (c : Char) (rest : List Char) :
    scanReplace step (c :: rest) =
      match step c rest with
      | some (out, rest2) => out ++ scanReplace step rest2
      | none => c :: scanReplace step rest := by
  show scanGo step (rest.length + 1) (c :: rest) = _
  simp only [scanGo]
  cases hstep : step c rest with
  | some p =>
    obtain ⟨out, rest2⟩ := p
    have hlen : rest2.length ≤ rest.length := hs c rest out rest2 hstep
    simp [scanGo_eq hs rest.length rest2 hlen]
  | none =>
    simp [scanGo_eq hs rest.length rest (Nat.le_refl _)]

@[simp]
theorem scanReplace_nil (step : Char → List Char → Option (List Char × List Char)) :
    scanReplace step [] = [] := rfl

/-! ## Mention cleaning (src/index.js lines 106-109 and 294-299) -/

/-- Step of `.replace(/<@[^>]+>/g, '')` at a `<`: the next character must be
`@`, followed by at least one non-`>` character and a closing `>`. -/
def htmlMentionStep (c : Char) (rest : List Char) :
    Option (List Char × List Char) :=
  if c = '<' then
    match rest with
    | '@' :: rest2 =>
      match rest2.dropWhile (· ≠ '>') with
      | '>' :: after =>
        if rest2.takeWhile (· ≠ '>') = [] then none else some ([], after)
      | _ => none
    | _ => none
  else none

theorem htmlMentionStep_shrinking : Shrinking htmlMentionStep := by
  intro c rest out rest2 h
  unfold htmlMentionStep at h
  split at h
  · split at h
    next r2 =>
      split at h
      next after heq =>
        split at h
        · exact absurd h (by simp)
        · simp only [Option.some.injEq, Prod.mk.injEq] at h
          obtain ⟨h1, h2⟩ := h
          subst h2
          have hle := dropWhile_len_le (fun c => decide (c ≠ '>')) r2
          rw [heq] at hle
          simp at hle ⊢
          omega
      next => exact absurd h (by simp)
    next => exact absurd h (by simp)
  · exact absurd h (by simp)

/-- `.replace(/<@[^>]+>/g, '')`: remove every bracketed mention `<@...>`. -/
def stripHtmlMentions (l : List Char) : List Char :=
  scanReplace htmlMentionStep l

/-- Step of `.replace(/@[^\s]+\s*/g, '')` at a `@`: at least one
non-whitespace character must follow; the match also swallows the
whitespace run after the token. -/
def atMentionStep (c : Char) (rest : List Char) :
    Option (List Char × List Char) :=
  if c = '@' then
    if rest.takeWhile (fun c => !jsWs c) = [] then none
    else some ([], (rest.dropWhile (fun c => !jsWs c)).dropWhile jsWs)
  else none

theorem atMentionStep_shrinking : Shrinking atMentionStep := by
  intro c rest out rest2 h
  unfold atMentionStep at h
  split at h
  · split at h
    · exact absurd h (by simp)
    · simp only [Option.some.injEq, Prod.mk.injEq] at h
      obtain ⟨h1, h2⟩ := h
      subst h2
      have h1 := dropWhile_len_le (fun c => !jsWs c) rest
      have h2 := dropWhile_len_le jsWs (rest.dropWhile (fun c => !jsWs c))
      omega
  · exact absurd h (by simp)

/-- `.replace(/@[^\s]+\s*/g, '')`: remove every bare mention `@token` and
the whitespace following it. -/
def stripAtMentions (l : List Char) : List Char :=
  scanReplace atMentionStep l

/-- Step of `.replace(/\s+/g, ' ')` at a whitespace character: the match is
the whole whitespace run, replaced by a single space. -/
def wsRunStep (c : Char) (rest : List Char) :
    Option (List Char × List Char) :=
  if jsWs c then some ([' '], rest.dropWhile jsWs) else none

theorem wsRunStep_shrinking : Shrinking wsRunStep := by
  intro c rest out rest2 h
  unfold wsRunStep at h
  split at h
  · simp only [Option.some.injEq, Prod.mk.injEq] at h
    obtain ⟨h1, h2⟩ := h
    subst h2
    have := dropWhile_len_le jsWs rest
    omega
  · exact absurd h (by simp)

/-- `.replace(/\s+/g, ' ')`: collapse every whitespace run to one space. -/
def collapseWs (l : List Char) : List Char :=
  scanReplace wsRunStep l

/-- The message-text cleaning of `handleMessageEvent` (src/index.js 106-109):
strip bracketed mentions, strip bare mentions, trim. -/
def cleanMessageText (s : String) : String :=
  ⟨jsTrim (stripAtMentions (stripHtmlMentions s.data))⟩

/-- The cleaning performed at the top of `parseCommand` (src/index.js
294-299): the same as `cleanMessageText` followed by collapsing internal
whitespace runs to single spaces. -/
def cleanParse (s : String) : String :=
  ⟨collapseWs (jsTrim (stripAtMentions (stripHtmlMentions s.data)))⟩

/-! ## Command parsing (src/index.js 293-334) -/

/-- Result of `parseCommand`: a command name (`""` = none) and argument. -/
structure ParsedCommand where
  command : String
  argument : String
  deriving Repr, DecidableEq

/-- Case-insensitively strip the (lowercase) word `w` from the front of `l`,
returning the residue. -/
def ciStrip : List Char → List Char → Option (List Char)
  | [], l => some l
  | _ :: _, [] => none
  | a :: as, c :: cs => if c.toLower = a then ciStrip as cs else none

/-- `\b` after a word: the next character (if any) is not a word character. -/
def wordBoundary : List Char → Bool
  | [] => true
  | c :: _ => !jsWord c

/-- The optional `\/?` of the command regexes: strip one leading slash. -/
def stripOptSlash : List Char → List Char
  | '/' :: t => t
  | l => l

/-- Model of the JS pattern `^\/?{word}\b` with the `/i` flag: optionally
strips one leading slash, case-insensitively strips `word`, requires a word
boundary, and returns the residue after the word. -/
def matchWord (w : List Char) (l : List Char) : Option (List Char) :=
  match ciStrip w (stripOptSlash l) with
  | some rest => if wordBoundary rest then some rest else none
  | none => none

/-- Model of `lower.match(/^([2-5])\s+(.*)$/)`: a leading digit 2-5, one or
more whitespace characters, then the captured remainder.  (`parseCommand`
applies this to whitespace-collapsed text, which contains no newline, so the
no-newline restriction of `.` is vacuous.) -/
def matchNumeric : List Char → Option (Char × List Char)
  | d :: c :: rest =>
    if (d = '2' || d = '3' || d = '4' || d = '5') && jsWs c then
      some (d, rest.dropWhile jsWs)
    else none
  | _ => none

/-- Body of `parseCommand` after the initial cleaning (src/index.js 300-333).
`trimmed` is the cleaned text. -/
def parseCommandClean (trimmed : List Char) : ParsedCommand :=
  let lower := lowerList trimmed
  match matchNumeric lower with
  | some (d, rest) =>
    if d = '2' then ⟨"gemini", ⟨jsTrim rest⟩⟩
    else if d = '3' then ⟨"help", ""⟩
    else if d = '4' then ⟨"wiki", ⟨jsTrim rest⟩⟩
    else ⟨"chatgpt", ⟨jsTrim rest⟩⟩
  | none =>
    match matchWord "gemini".data trimmed with
    | some rest => ⟨"gemini", ⟨jsTrim (rest.dropWhile jsWs)⟩⟩
    | none =>
      match matchWord "wiki".data trimmed with
      | some rest => ⟨"wiki", ⟨jsTrim (rest.dropWhile jsWs)⟩⟩
      | none =>
        match matchWord "chatgpt".data trimmed with
        | some rest => ⟨"chatgpt", ⟨jsTrim (rest.dropWhile jsWs)⟩⟩
        | none =>
          if (matchWord "help".data trimmed).isSome then ⟨"help", ""⟩
          else ⟨"", ⟨trimmed⟩⟩

/-- `parseCommand` (src/index.js 293-334). -/
def parseCommand (messageText : String) : ParsedCommand :=
  parseCommandClean (cleanParse messageText).data

/-! ## JSON values and JavaScript object semantics -/

/-- A JavaScript value as far as this program observes it: JSON values plus
`undefined`.  Numbers are modelled as integers (no fractional value in the
program is ever inspected). -/
inductive JVal where
  | nullv
  | undef
  | boolv (b : Bool)
  | num (n : Int)
  | str (s : String)
  | arr (xs : List JVal)
  | obj (fields : List (String × JVal))

/-- JavaScript truthiness. -/
def jsTruthy : JVal → Bool
  | .nullv => false
  | .undef => false
  | .boolv b => b
  | .num n => n != 0
  | .str s => s != ""
  | .arr _ => true
  | .obj _ => true

/-- JavaScript `a || b`. -/
def jsOr (a b : JVal) : JVal := if jsTruthy a then a else b

/-- Property lookup `o.k` on a non-nullish value: objects yield the field
(or `undefined`), primitives yield `undefined`. -/
def jsGet (v : JVal) (k : String) : JVal :=
  match v with
  | .obj fields =>
    match fields.find? (fun p => p.1 = k) with
    | some p => p.2
    | none => .undef
  | _ => JVal.undef

/-- Plain property access `o.k`: throws a `TypeError` when `o` is nullish. -/
def jsGetE (v : JVal) (k : String) : Except String JVal :=
  match v with
  | .nullv => .error ("TypeError: Cannot read properties of null (reading " ++ k ++ ")")
  | .undef => .error ("TypeError: Cannot read properties of undefined (reading " ++ k ++ ")")
  | _ => .ok (jsGet v k)

/-- Optional chaining `o?.k`: a nullish `o` short-circuits to `undefined`. -/
def jsGetOpt (v : JVal) (k : String) : JVal :=
  match v with
  | .nullv => .undef
  | .undef => .undef
  | _ => jsGet v k

/-- Optional index access `o?.[i]`. -/
def jsIdxOpt (v : JVal) (i : Nat) : JVal :=
  match v with
  | .arr xs => xs.getD i .undef
  | _ => JVal.undef

/-- The `String(x)` coercion (array joining with nested objects is
approximated; the program only uses the result as opaque display text). -/
def jsToString : JVal → String
  | .nullv => "null"
  | .undef => "undefined"
  | .boolv b => cond b "true" "false"
  | .num n => toString n
  | .str s => s
  | .arr _ => ""
  | .obj _ => "[object Object]"

/-- `JSON.stringify`, approximated (string escaping elided); the program
only embeds the result inside opaque error messages. -/
def jsonStringify : JVal → String
  | .nullv => "null"
  | .undef => "undefined"
  | .boolv b => cond b "true" "false"
  | .num n => toString n
  | .str s => "\"" ++ s ++ "\""
  | .arr xs => "[" ++ String.intercalate "," (xs.attach.map fun x => jsonStringify x.1) ++ "]"
  | .obj fs => "\x7b" ++
      String.intercalate ","
        (fs.attach.map fun p => "\"" ++ p.1.1 ++ "\":" ++ jsonStringify p.1.2) ++ "\x7d"
  decreasing_by
  · have := List.sizeOf_lt_of_mem x.2
    simp_wf
    omega
  · obtain ⟨⟨k, v⟩, hp⟩ := p
    have := List.sizeOf_lt_of_mem hp
    simp_wf
    simp at this
    omega

/-! ## `sanitizeForLogging` (src/index.js 361-395)

JavaScript objects may form arbitrary (even cyclic) graphs, so the input is
modelled as a graph: node identifiers with an adjacency function.  The JS
function recurses with `depth + 1` and returns the marker string as soon as
`depth > 10`; here the recursion consumes the remaining budget `11 - depth`,
which is the same computation with a structurally decreasing argument. -/

/-- A node of a JavaScript value graph. -/
inductive GNode where
  | gnull
  | gundef
  | gbool (b : Bool)
  | gnum (n : Int)
  | gstr (s : String)
  | garr (children : List Nat)
  | gobj (fields : List (String × Nat))

/-- The sensitive-key list of `sanitizeForLogging` (src/index.js 379-383). -/
def sensitiveKeys : List String :=
  ["project_key", "user_key", "api_key", "apiKey", "key", "token",
   "access_token", "refresh_token", "secret", "password", "auth",
   "authorization", "credentials", "private_key", "privateKey"]

/-- Boolean list-prefix test. -/
def isPrefixOfB : List Char → List Char → Bool
  | [], _ => true
  | _ :: _, [] => false
  | a :: as, b :: bs => a == b && isPrefixOfB as bs

/-- Boolean substring test on character lists. -/
def listContains (sub : List Char) : List Char → Bool
  | [] => isPrefixOfB sub []
  | c :: t => isPrefixOfB sub (c :: t) || listContains sub t

/-- `String.prototype.includes`: substring containment. -/
def strContains (s sub : String) : Bool := listContains sub.data s.data

/-- Does `sanitizeForLogging` mask this key?  (`lowerKey.includes(sensitive)`
on the lowercased key, src/index.js 386-388.) -/
def isSensitiveKey (k : String) : Bool :=
  sensitiveKeys.any (fun sk => strContains ⟨lowerList k.data⟩ sk)

/-- Budget-indexed body of `sanitizeForLogging`: a budget of `0` corresponds
to `depth > 10`. -/
def sanitizeAux (g : Nat → GNode) : Nat → Nat → JVal
  | 0, _ => .str "[Max depth reached]"
  | budget + 1, node =>
    match g node with
    | .gnull => .nullv
    | .gundef => .undef
    | .gbool b => .boolv b
    | .gnum n => .num n
    | .gstr s => .str s
    | .garr cs => .arr (cs.map fun c => sanitizeAux g budget c)
    | .gobj fs => .obj (fs.map fun kv =>
        if isSensitiveKey kv.1 then (kv.1, .str "***MASKED***")
        else (kv.1, sanitizeAux g budget kv.2))

/-- `sanitizeForLogging(obj, depth)` (src/index.js 361-395) on the node
`node` of the graph `g`. -/
def sanitizeForLogging (g : Nat → GNode) (node : Nat) (depth : Nat) : JVal :=
  sanitizeAux g (11 - depth) node

/-! ## Configuration (env.js)

Every configuration value read by `src/index.js` is a field here.  String
fields model JavaScript strings, where `""` is the only falsy value; numeric
and boolean settings are modelled as the `JVal` they are inserted into
payloads as. -/

structure EnvCfg where
  geminiApiKey : String
  geminiApiUrl : String
  projectID : String
  location : String
  azureOpenAIEndpoint : String
  azureOpenAIKey : String
  azureOpenAIModel : String
  azureSearchOpenAIModel : String
  azureOpenAIApiVersion : String
  azureOpenAITemperature : JVal
  azureOpenAIMaxTokens : JVal
  azureOpenAITopP : JVal
  azureOpenAISystemMessage : String
  azureSearchService : String
  azureSearchIndex : String
  azureSearchKey : String
  azureSearchQueryType : String
  azureSearchTopK : JVal
  azureSearchStrictness : JVal
  azureSearchEnableInDomain : JVal
  azureSearchSemanticSearchConfig : String
  azureSearchContentColumns : String
  azureSearchVectorColumns : String
  azureSearchTitleColumn : String
  azureSearchUrlColumn : String
  azureSearchFilenameColumn : String
  azureOpenAIEmbeddingName : String
  searchMaxSearchQueries : String
  searchAllowPartialResult : JVal
  searchIncludeContexts : JVal
  searchVectorizationDimensions : String
  azureCosmosDBAccount : String
  azureCosmosDBDatabase : String
  azureCosmosDBConversationsContainer : String
  azureCosmosDBAccountKey : String

/-- `parseInt` on a configuration string (approximated by reading the
leading decimal digits; every configured value is a plain number). -/
def jsParseInt (s : String) : JVal :=
  .num ((s.data.takeWhile Char.isDigit).foldl (fun a c => a * 10 + ((c.toNat : Int) - 48)) 0)

/-- `s.split('|').map(c => c.trim())`. -/
def splitPipe (c : Char) (l : List Char) : List (List Char) :=
  match l with
  | [] => [[]]
  | x :: xs =>
    if x = c then [] :: splitPipe c xs
    else
      match splitPipe c xs with
      | h :: t => (x :: h) :: t
      | [] => [[x]]

/-- Pipe-separated column list, each entry trimmed. -/
def pipeColumns (s : String) : List String :=
  (splitPipe '|' s.data).map (fun l => ⟨jsTrim l⟩)

/-! ## `buildAzureSearchDataSource` (src/index.js 815-923) -/

/-- `buildAzureSearchDataSource` (src/index.js 815-923): `none` models the
JS `null` returned when the search service or index is not configured. -/
def buildAzureSearchDataSource (env : EnvCfg) : Option JVal :=
  if env.azureSearchService = "" || env.azureSearchIndex = "" then none
  else
    let searchEndpoint := "https://" ++ env.azureSearchService ++ ".search.windows.net"
    let authentication : JVal :=
      if env.azureSearchKey != "" then
        .obj [("type", .str "api_key"), ("key", .str env.azureSearchKey)]
      else
        .obj [("type", .str "system_assigned_managed_identity")]
    let fieldsMapping : List (String × JVal) :=
      (if env.azureSearchContentColumns != "" then
        [("content_fields", .arr ((pipeColumns env.azureSearchContentColumns).map .str))]
       else []) ++
      (if env.azureSearchVectorColumns != "" then
        [("vector_fields", .arr ((pipeColumns env.azureSearchVectorColumns).map .str))]
       else []) ++
      (if env.azureSearchTitleColumn != "" then
        [("title_field", .str env.azureSearchTitleColumn)] else []) ++
      (if env.azureSearchUrlColumn != "" then
        [("url_field", .str env.azureSearchUrlColumn)] else []) ++
      (if env.azureSearchFilenameColumn != "" then
        [("filepath_field", .str env.azureSearchFilenameColumn)] else [])
    let embeddingDependency : Option JVal :=
      if env.azureOpenAIEmbeddingName != "" &&
          strContains env.azureSearchQueryType "vector" then
        some (.obj [("type", .str "deployment_name"),
                    ("deployment_name", .str env.azureOpenAIEmbeddingName)])
      else none
    let parameters : List (String × JVal) :=
      [("endpoint", .str searchEndpoint),
       ("index_name", .str env.azureSearchIndex),
       ("authentication", authentication),
       ("top_n_documents", env.azureSearchTopK),
       ("strictness", env.azureSearchStrictness),
       ("in_scope", env.azureSearchEnableInDomain),
       ("query_type", .str env.azureSearchQueryType),
       ("include_contexts", env.searchIncludeContexts)] ++
      (if env.searchMaxSearchQueries != "" then
        [("max_search_queries", jsParseInt env.searchMaxSearchQueries)] else []) ++
      (if jsTruthy env.searchAllowPartialResult then
        [("allow_partial_result", env.searchAllowPartialResult)] else []) ++
      (if env.searchVectorizationDimensions != "" then
        [("vectorization_dimensions", jsParseInt env.searchVectorizationDimensions)]
       else []) ++
      (if env.azureSearchSemanticSearchConfig != "" &&
          strContains env.azureSearchQueryType "semantic" then
        [("semantic_configuration", .str env.azureSearchSemanticSearchConfig)]
       else []) ++
      (if fieldsMapping.length > 0 then [("fields_mapping", .obj fieldsMapping)] else []) ++
      (match embeddingDependency with
       | some e => [("embedding_dependency", e)]
       | none => [])
    some (.obj [("type", .str "azure_search"), ("parameters", .obj parameters)])

/-! ## `callAzureOpenAI` (src/index.js 646-808) -/

/-- The options object taken by `callAzureOpenAI`; `model = ""` models an
absent `options.model` (no caller in the program ever passes one). -/
structure AzOptions where
  useSearch : Bool
  model : String := ""

/-- One entry of the `messages` array.  History entries coming back from the
history store can carry arbitrary JSON in both fields. -/
structure ChatMsg where
  role : JVal
  content : JVal

/-- Model selection of `callAzureOpenAI` (src/index.js 654-670). -/
def azureSelectModel (env : EnvCfg) (options : AzOptions) : String :=
  if options.model != "" then options.model
  else if options.useSearch then
    (if env.azureSearchOpenAIModel != "" then env.azureSearchOpenAIModel
     else env.azureOpenAIModel)
  else env.azureOpenAIModel

/-- The `messages` array of `callAzureOpenAI` (src/index.js 690-710): a
system turn only when search is used, then the chat history, then the
user's turn. -/
def buildAzureMessages (env : EnvCfg) (prompt : String)
    (chatHistory : List ChatMsg) (options : AzOptions) : List ChatMsg :=
  (if options.useSearch then
    [⟨.str "system", .str env.azureOpenAISystemMessage⟩] else []) ++
  chatHistory ++ [⟨.str "user", .str prompt⟩]

/-- A message rendered into the JSON payload. -/
def chatMsgToJVal (m : ChatMsg) : JVal :=
  .obj [("role", m.role), ("content", m.content)]

/-- The request payload of `callAzureOpenAI` (src/index.js 712-737):
`max_completion_tokens` only without search, `data_sources` only with
search and a non-null data source configuration. -/
def buildAzurePayload (env : EnvCfg) (prompt : String)
    (chatHistory : List ChatMsg) (options : AzOptions) : JVal :=
  let messages := buildAzureMessages env prompt chatHistory options
  .obj ([("messages", .arr (messages.map chatMsgToJVal)),
         ("temperature", env.azureOpenAITemperature),
         ("top_p", env.azureOpenAITopP),
         ("model", .str (azureSelectModel env options))] ++
    (if !options.useSearch then
      [("max_completion_tokens", env.azureOpenAIMaxTokens)] else []) ++
    (if options.useSearch then
      match buildAzureSearchDataSource env with
      | some ds => [("data_sources", .arr [ds])]
      | none => []
     else []))

/-- Does a JSON object carry this key? -/
def jvalHasKey (v : JVal) (k : String) : Bool :=
  match v with
  | .obj fs => fs.any (fun p => p.1 == k)
  | _ => false

/-- Outcome of one `fetch` call: either the promise rejects (or a later step
throws), or a response arrives with a status, a body text and a body JSON. -/
inductive FetchOutcome where
  | netErr (msg : String)
  | resp (status : Nat) (text : String) (json : JVal)

/-- Per-block text extraction for an array-shaped message content
(src/index.js 780-785). -/
def azureBlockText (block : JVal) : String :=
  match block with
  | .str s => s
  | b =>
    if jsTruthy b then
      match jsGet b "text" with
      | .str t => t
      | _ =>
        match jsGet b "content" with
        | .str t => t
        | _ => ""
    else ""

/-- The content normalization of `callAzureOpenAI` (src/index.js 775-788):
string content is kept, array content is joined block-wise with newlines,
non-array object content falls back to its `text`/`content` field, anything
else leaves the initial `''`. -/
def extractAzureContent (c : JVal) : JVal :=
  match c with
  | .str s => .str s
  | .arr blocks => .str (String.intercalate "\n" (blocks.map azureBlockText))
  | .obj _ => jsOr (jsOr (jsGet c "text") (jsGet c "content")) (.str "")
  | _ => .str ""

/-- `.length` of a value (used for `responseData.choices.length`). -/
def jvalLen (v : JVal) : JVal :=
  match v with
  | .arr xs => .num xs.length
  | .str s => .num s.data.length
  | _ => jsGet v "length"

/-- `x > 0` on a JS value: only a positive number passes. -/
def jsNumGtZero : JVal → Bool
  | .num n => n > 0
  | _ => false

/-- The normalized result of `callAzureOpenAI`: `content` and `citations`
(`citations` is `null` when absent). -/
structure AzureResult where
  content : JVal
  citations : JVal

/-- `callAzureOpenAI` (src/index.js 646-808).  The network call is the
`fetch` oracle; request construction is pure (`buildAzurePayload`), and the
function has no internal catch, so every throw surfaces as `.error`. -/
def callAzureOpenAI (env : EnvCfg) (prompt : String) (chatHistory : List ChatMsg)
    (options : AzOptions) (fetch : FetchOutcome) : Except String AzureResult :=
  let model := azureSelectModel env options
  if env.azureOpenAIEndpoint = "" || env.azureOpenAIKey = "" || model = "" then
    .error ("Azure OpenAI configuration incomplete. Required: " ++
      "AZURE_OPENAI_ENDPOINT (or AZURE_OPENAI_RESOURCE), AZURE_OPENAI_KEY, AZURE_OPENAI_MODEL")
  else
    let _payload := buildAzurePayload env prompt chatHistory options
    match fetch with
    | .netErr msg => .error msg
    | .resp status text json =>
      if status ≠ 200 then
        .error ("Azure OpenAI API request failed with code " ++
          toString status ++ ": " ++ text)
      else do
        let choices ← jsGetE json "choices"
        if jsTruthy choices && jsNumGtZero (jvalLen choices) then do
          let choice := jsIdxOpt choices 0
          let message ← jsGetE choice "message"
          let mcontent ← jsGetE message "content"
          let content := extractAzureContent mcontent
          let ctx := jsGet message "context"
          let citations :=
            if jsTruthy ctx && jsTruthy (jsGet ctx "citations") then jsGet ctx "citations"
            else JVal.nullv
          pure ⟨jsOr content (.str ""), citations⟩
        else
          .error ("Invalid response format from Azure OpenAI API: " ++ jsonStringify json)

/-! ## CosmosDB history store (src/index.js 937-1154) -/

/-- The pair returned by `generateCosmosDBAuthHeader`. -/
structure CosmosAuth where
  auth : String
  date : String

/-- `generateCosmosDBAuthHeader` (src/index.js 1127-1154).  The current UTC
date string (`new Date().toUTCString()`) and the cryptographic primitives
(base64 decoding of the key, HMAC-SHA256 keyed by the decoded key bytes,
base64 encoding of the digest) are parameters; the claims concern the
canonical string, the resource id and the header formats. -/
def generateCosmosDBAuthHeader
    (b64decode : String → List Nat)
    (hmacSha256 : List Nat → String → List Nat)
    (b64encode : List Nat → String)
    (date : String)
    (verb resourceType key database container : String) : CosmosAuth :=
  let resourceId :=
    if resourceType = "docs" then "dbs/" ++ database ++ "/colls/" ++ container
    else resourceType
  let stringToSign :=
    lowerStr verb ++ "\n" ++ resourceType ++ "\n" ++ resourceId ++ "\n\n" ++
      lowerStr date ++ "\n"
  let keyBuffer := b64decode key
  let signature := b64encode (hmacSha256 keyBuffer stringToSign)
  let auth := "type=" ++ "master" ++ "&ver=" ++ "1.0" ++ "&sig=" ++ signature
  { auth := auth, date := date }

/-- Is the CosmosDB configuration complete?  (`!cosmosAccount || ...`). -/
def cosmosConfigured (env : EnvCfg) : Bool :=
  env.azureCosmosDBAccount != "" && env.azureCosmosDBDatabase != "" &&
  env.azureCosmosDBConversationsContainer != "" && env.azureCosmosDBAccountKey != ""

/-- `getOrCreateConversation` (src/index.js 937-989).  `conversationId = ""`
models the absent (`null`) argument.  `uuidNoCfg`, `uuidConv` and
`uuidCatch` are the values of the three possible `crypto.randomUUID()`
calls (unconfigured early return, the id of the conversation document
built in the `try` block, and the `catch` fallback).  The request
construction (document body, auth headers) does not influence the returned
value and is absorbed by the `fetch` oracle; a rejected `fetch` or a
failing `response.json()` is `FetchOutcome.netErr`. -/
def getOrCreateConversation (env : EnvCfg) (userId : String)
    (conversationId : String) (title : String)
    (uuidNoCfg uuidConv uuidCatch : String) (fetch : FetchOutcome) :
    Except String JVal :=
  let _ := userId
  let _ := title
  if conversationId != "" then .ok (.str conversationId)
  else if !cosmosConfigured env then .ok (.str uuidNoCfg)
  else
    let tryBlock : Except String JVal :=
      match fetch with
      | .netErr msg => .error msg
      | .resp status _ json =>
        if status = 201 || status = 200 then .ok (jsGet json "id")
        else .ok (.str uuidConv)
    match tryBlock with
    | .ok v => .ok v
    | .error _ => .ok (.str uuidCatch)

/-- `getChatHistory` (src/index.js 1053-1115).  On a 200 response the
`Documents` array is mapped to `{role, content}` pairs; on any other status
the function throws a `CosmosDB error` carrying the response text, and its
own `catch` clause logs and rethrows, so a rejected `fetch` also
propagates. -/
def getChatHistory (env : EnvCfg) (userId conversationId : String)
    (fetch : FetchOutcome) : Except String (List ChatMsg) :=
  let _ := userId
  let _ := conversationId
  if !cosmosConfigured env then .ok []
  else
    match fetch with
    | .netErr msg => .error msg
    | .resp status text json =>
      if status = 200 then
        let docs :=
          match jsGet json "Documents" with
          | .arr ds => ds
          | _ => []
        .ok (docs.map fun d => ⟨jsGet d "role", jsGet d "content"⟩)
      else .error ("CosmosDB error: " ++ text)

/-! ## Citation-marker removal (src/index.js 1186-1192) -/

/-- `ciStrip` never lengthens the residue. -/
theorem ciStrip_len_le :
    ∀ (w l r : List Char), ciStrip w l = some r → r.length ≤ l.length := by
  intro w
  induction w with
  | nil =>
    intro l r h
    simp only [ciStrip, Option.some.injEq] at h
    subst h
    exact Nat.le_refl _
  | cons a as ih =>
    intro l r h
    match l with
    | [] => exact absurd h (by simp [ciStrip])
    | c :: cs =>
      simp only [ciStrip] at h
      split at h
      · exact Nat.le_trans (ih cs r h) (Nat.le_succ _)
      · exact absurd h (by simp)

/-- Step of `.replace(/\[doc\s*\d+\]/gi, '')` at a `[`: case-insensitive
`doc`, optional whitespace, at least one digit, then `]`. -/
def docMarkerStep (c : Char) (rest : List Char) :
    Option (List Char × List Char) :=
  if c = '[' then
    match ciStrip "doc".data rest with
    | some l3 =>
      if (l3.dropWhile jsWs).takeWhile Char.isDigit = [] then none
      else
        match (l3.dropWhile jsWs).dropWhile Char.isDigit with
        | ']' :: after => some ([], after)
        | _ => none
    | none => none
  else none

theorem docMarkerStep_shrinking : Shrinking docMarkerStep := by
  intro c rest out rest2 h
  unfold docMarkerStep at h
  split at h
  · split at h
    next l3 hstrip =>
      have h3 : l3.length ≤ rest.length := ciStrip_len_le _ _ _ hstrip
      split at h
      · exact absurd h (by simp)
      · split at h
        next after hdrop =>
          simp only [Option.some.injEq, Prod.mk.injEq] at h
          obtain ⟨h1, h2⟩ := h
          subst h2
          have h4 := dropWhile_len_le jsWs l3
          have h5 := dropWhile_len_le Char.isDigit (l3.dropWhile jsWs)
          rw [hdrop] at h5
          simp at h5
          omega
        next => exact absurd h (by simp)
    next => exact absurd h (by simp)
  · exact absurd h (by simp)

/-- `.replace(/\[doc\s*\d+\]/gi, '')`: remove every `[doc N]` citation
marker. -/
def removeDocRefs (l : List Char) : List Char :=
  scanReplace docMarkerStep l

/-- The visible-text cleaning of `handleWikiRequest` (src/index.js
1187-1189): remove the citation markers, then `.trim()`. -/
def stripDocCitations (s : String) : String :=
  ⟨jsTrim (removeDocRefs s.data)⟩

/-! ## Response formatting and help text (src/index.js 559-632) -/

/-- `createChatResponse` (src/index.js 559-571): the fixed 4-level reply
envelope around a single text field. -/
def createChatResponse (text : String) : JVal :=
  .obj [("hostAppDataAction",
    .obj [("chatDataAction",
      .obj [("createMessageAction",
        .obj [("message",
          .obj [("text", .str text)])])])])]

/-- `toUpperCase`. -/
def upperStr (s : String) : String := ⟨s.data.map Char.toUpper⟩

/-- Scanner for `baseUrl.match(/models\/([^:?\/]+)/)`: the first position
where `models/` is followed by at least one character outside `:?/`. -/
def geminiModelFrom : List Char → Option (List Char)
  | [] => none
  | c :: t =>
    if isPrefixOfB "models/".data (c :: t) then
      let seg := ((c :: t).drop 7).takeWhile
        (fun ch => !(ch = ':' || ch = '?' || ch = '/'))
      if seg = [] then geminiModelFrom t else some seg
    else geminiModelFrom t

/-- `getGeminiModelName` (src/index.js 582-590). -/
def getGeminiModelName (env : EnvCfg) : String :=
  if env.geminiApiUrl = "" then "unknown"
  else
    match geminiModelFrom env.geminiApiUrl.data with
    | some seg => ⟨seg⟩
    | none => "unknown"

/-- `getHelpMessage` (src/index.js 597-632).  The text is the literal
template of the source (which stores mojibake characters for its emoji). -/
def getHelpMessage (env : EnvCfg) : String :=
  let geminiModel := getGeminiModelName env
  let azureModel := if env.azureOpenAIModel != "" then env.azureOpenAIModel else "not configured"
  let searchModel := if env.azureSearchOpenAIModel != "" then env.azureSearchOpenAIModel else azureModel
  "ü§ñ AI Chat Bot - Multiple AI Providers\n\nCommands:\n" ++
  "\u201A\u00C4\u00A2 /wiki [question] - Search internal wiki (Azure OpenAI + RAG) (" ++ searchModel ++ ")\n" ++
  "\u201A\u00C4\u00A2 /gemini [message] - Google Gemini AI (" ++ geminiModel ++ ")\n" ++
  "\u201A\u00C4\u00A2 /chatgpt [message] - Azure OpenAI ChatGPT (" ++ azureModel ++ ")\n" ++
  "\u201A\u00C4\u00A2 /help - Show this message\n\n" ++
  "Default: Send any message to use Gemini AI automatically\n\nExamples:\n" ++
  "\u201A\u00C4\u00A2 \"What's largest city in Colorado?\" \u201A\u00DC\u00ED Uses Gemini\n" ++
  "\u201A\u00C4\u00A2 /wiki where do I view the Entra ID sign in logs? \u201A\u00DC\u00ED Wiki search\n" ++
  "\u201A\u00C4\u00A2 /chatgpt Write a Python function to query ldap.org.edu LDAP? \u201A\u00DC\u00ED ChatGPT\n" ++
  "\u201A\u00C4\u00A2 /help \u201A\u00DC\u00ED This message\n\n" ++
  String.join (List.replicate 40 "\u201A\u00EE\u00C5") ++
  "\nüìù HOW TO WRITE A GOOD PROMPT\n" ++
  String.join (List.replicate 40 "\u201A\u00EE\u00C5") ++
  "\n\nA \"prompt\" is the instruction you give to the AI. The quality of the answer depends on the quality of your prompt.\n\n" ++
  "Instead of asking \"Write an email about the server outage,\" try something like this:\n\n" ++
  "```\nRole: \"Act as a Senior IT System Administrator...\"\n" ++
  "Context: \"...writing to non-technical staff about the email server outage caused by a power failure.\"\n" ++
  "Task: \"Draft a reassuring notification email explaining what happened.\"\n" ++
  "Format: \"Keep it under 100 words and use bullet points.\"\n```"

/-! ## Request handlers (src/index.js 88-281, 410-434, 1169-1241)

The two external AI calls are oracles: `gemini` is the outcome of
`callGeminiAPI` (whose internals are network and credential plumbing), and
`azure` the `fetch` outcome consumed by `callAzureOpenAI`.  The `space` and
`user` values extracted by the handlers are only ever logged, never used to
build a reply, and are elided. -/

/-- The oracles for one inbound event. -/
structure Oracles where
  gemini : Except String String
  azure : FetchOutcome

/-- `CONFIG.DEFAULT_AI_PROVIDER` (src/index.js 37-39). -/
def DEFAULT_AI_PROVIDER : String := "gemini"

/-- `handleAIRequest` (src/index.js 410-434). -/
def handleAIRequest (messageText : String) (provider : String)
    (gemini : Except String String) : JVal :=
  if messageText = "" || jsTrimS messageText = "" then
    createChatResponse "Please provide a message to process."
  else if provider != "gemini" then
    createChatResponse "Only Gemini AI is currently supported."
  else
    match gemini with
    | .ok response =>
      createChatResponse ("ü§ñ " ++ upperStr provider ++
        " Response:\n\n" ++ response)
    | .error e =>
      createChatResponse ("Sorry, I encountered an error with the " ++ provider ++
        " service: " ++ e)

/-- `handleWikiRequest` (src/index.js 1169-1203): RAG call with
`useSearch: true`, citation-marker removal, catch-all apology. -/
def handleWikiRequest (env : EnvCfg) (prompt : String) (azure : FetchOutcome) : JVal :=
  if prompt = "" || jsTrimS prompt = "" then
    createChatResponse "Please provide a question for the wiki search."
  else
    match (do
      let response ← callAzureOpenAI env prompt [] ⟨true, ""⟩ azure
      match jsOr response.content (.str "") with
      | .str s => pure (stripDocCitations s)
      | _ => .error "TypeError: cleanContent.replace is not a function"
      : Except String String) with
    | .ok cleanContent =>
      createChatResponse ("üìö Wiki Response:\n\n" ++ cleanContent)
    | .error e =>
      createChatResponse ("Sorry, I encountered an error with the wiki search: " ++ e)

/-- `handleChatGPTRequest` (src/index.js 1213-1241): simple chat with
`useSearch: false`, catch-all apology. -/
def handleChatGPTRequest (env : EnvCfg) (prompt : String) (azure : FetchOutcome) : JVal :=
  if prompt = "" || jsTrimS prompt = "" then
    createChatResponse "Please provide a message for ChatGPT."
  else
    match callAzureOpenAI env prompt [] ⟨false, ""⟩ azure with
    | .ok response =>
      createChatResponse ("üí¨ ChatGPT Response:\n\n" ++
        jsToString response.content)
    | .error e =>
      createChatResponse ("Sorry, I encountered an error with ChatGPT: " ++ e)

/-- Strict string equality `v === "s"`. -/
def jvalEqStr (v : JVal) (s : String) : Bool :=
  match v with
  | .str t => t == s
  | _ => false

/-- The routing part of `handleMessageEvent` (src/index.js 100-135), taking
the extracted `message?.text` value. -/
def messageRoute (env : EnvCfg) (orc : Oracles) (mtext : JVal) :
    Except String JVal :=
  if !jsTruthy mtext then
    pure (createChatResponse "I received a message without text content.")
  else
    match mtext with
    | .str s =>
      let messageText := cleanMessageText s
      if messageText = "" then pure (createChatResponse (getHelpMessage env))
      else
        let commandResult := parseCommand messageText
        if commandResult.command = "gemini" then
          pure (handleAIRequest commandResult.argument "gemini" orc.gemini)
        else if commandResult.command = "wiki" then
          pure (handleWikiRequest env commandResult.argument orc.azure)
        else if commandResult.command = "chatgpt" then
          pure (handleChatGPTRequest env commandResult.argument orc.azure)
        else if commandResult.command = "help" then
          pure (createChatResponse (getHelpMessage env))
        else
          pure (handleAIRequest messageText DEFAULT_AI_PROVIDER orc.gemini)
    | _ => .error "TypeError: message.text.replace is not a function"

/-- The `try` body of `handleMessageEvent` (src/index.js 89-135). -/
def handleMessageEventBody (env : EnvCfg) (orc : Oracles) (event : JVal) :
    Except String JVal := do
  let chat ← jsGetE event "chat"
  let message := jsOr (jsGetOpt (jsGetOpt chat "messagePayload") "message")
    (jsGet event "message")
  messageRoute env orc (jsGetOpt message "text")

/-- `handleMessageEvent` (src/index.js 88-140): its own `catch` converts any
failure into a fixed apology reply. -/
def handleMessageEvent (env : EnvCfg) (orc : Oracles) (event : JVal) : JVal :=
  match handleMessageEventBody env orc event with
  | .ok r => r
  | .error _ =>
    createChatResponse "Sorry, I encountered an error processing your message."

/-- `handleAddedToSpaceEvent` (src/index.js 148-156); no internal catch. -/
def handleAddedToSpaceEvent (event : JVal) : Except String JVal := do
  let chat ← jsGetE event "chat"
  let _spaceName := jsOr
    (jsGetOpt (jsGetOpt (jsGetOpt chat "addedToSpacePayload") "space") "name")
    (.str "space")
  pure (createChatResponse
    ("Hello! I'm your AI assistant powered by Gemini. " ++
     "Send me any message to get started, or type /help for commands!"))

/-- `handleRemovedFromSpaceEvent` (src/index.js 164-169); no internal catch. -/
def handleRemovedFromSpaceEvent (event : JVal) : Except String JVal := do
  let chat ← jsGetE event "chat"
  let _spaceName := jsOr
    (jsGetOpt (jsGetOpt (jsGetOpt chat "removedFromSpacePayload") "space") "name")
    (.str "space")
  pure (createChatResponse "")

/-- `handleActionEvent` (src/index.js 177-185): a fixed placeholder reply. -/
def handleActionEvent (_event : JVal) : JVal :=
  createChatResponse "Unknown action. Please try again."

/-- `x.trim()` on a JS value: throws unless it is a string. -/
def jsCallTrim (v : JVal) : Except String JVal :=
  match v with
  | .str s => .ok (.str (jsTrimS s))
  | _ => .error "TypeError: trim is not a function"

/-- The routing part of `handleAppCommandEvent` (src/index.js 244-276),
taking the extracted message text, command name, command id and argument
text. -/
def appCommandRoute (env : EnvCfg) (orc : Oracles) (messageText : String)
    (commandName commandId argumentText : JVal) : Except String JVal :=
  -- `(argumentText && argumentText.trim())` (src/index.js 247 etc.)
  let argTrimmed : Except String JVal :=
    if jsTruthy argumentText then jsCallTrim argumentText else pure argumentText
  let mt := messageText.data
  if (matchWord "gemini".data mt).isSome || jvalEqStr commandName "gemini" ||
      jvalEqStr commandName "/gemini" then do
    let a ← argTrimmed
    let fallback : String :=
      match matchWord "gemini".data mt with
      | some rest => ⟨jsTrim rest⟩
      | none => jsTrimS messageText
    let prompt := jsOr (jsOr a (.str fallback)) (.str "")
    pure (handleAIRequest (jsToString prompt) "gemini" orc.gemini)
  else if (matchWord "wiki".data mt).isSome || jvalEqStr commandName "wiki" ||
      jvalEqStr commandName "/wiki" then do
    let a ← argTrimmed
    let fallback : String :=
      match matchWord "wiki".data mt with
      | some rest => ⟨jsTrim rest⟩
      | none => jsTrimS messageText
    let prompt := jsOr (jsOr a (.str fallback)) (.str "")
    pure (handleWikiRequest env (jsToString prompt) orc.azure)
  else if (matchWord "chatgpt".data mt).isSome || jvalEqStr commandName "chatgpt" ||
      jvalEqStr commandName "/chatgpt" then do
    let a ← argTrimmed
    let fallback : String :=
      match matchWord "chatgpt".data mt with
      | some rest => ⟨jsTrim rest⟩
      | none => jsTrimS messageText
    let prompt := jsOr (jsOr a (.str fallback)) (.str "")
    pure (handleChatGPTRequest env (jsToString prompt) orc.azure)
  else if (matchWord "help".data mt).isSome || jvalEqStr commandName "help" ||
      jvalEqStr commandName "/help" then
    pure (createChatResponse (getHelpMessage env))
  -- fallback on the command id (src/index.js 260-273)
  else if jsTruthy commandId && jsToString commandId = "2" then do
    let p ← jsCallTrim (jsOr argumentText (.str ""))
    pure (handleAIRequest (jsToString (jsOr p (.str ""))) "gemini" orc.gemini)
  else if jsTruthy commandId && jsToString commandId = "3" then
    pure (createChatResponse (getHelpMessage env))
  else if jsTruthy commandId && jsToString commandId = "4" then do
    let p ← jsCallTrim (jsOr argumentText (.str ""))
    pure (handleWikiRequest env (jsToString (jsOr p (.str ""))) orc.azure)
  else if jsTruthy commandId && jsToString commandId = "5" then do
    let p ← jsCallTrim (jsOr argumentText (.str ""))
    pure (handleChatGPTRequest env (jsToString (jsOr p (.str ""))) orc.azure)
  else
    pure (createChatResponse (getHelpMessage env))

/-- The `try` body of `handleAppCommandEvent` (src/index.js 194-276):
field extraction followed by `appCommandRoute`. -/
def handleAppCommandEventBody (env : EnvCfg) (orc : Oracles) (event : JVal) :
    Except String JVal := do
  let chat ← jsGetE event "chat"
  let acp := jsGetOpt chat "appCommandPayload"
  let mp := jsGetOpt chat "messagePayload"
  -- raw command text (src/index.js 204-211)
  let rawText : JVal :=
    if jsTruthy (jsGetOpt (jsGetOpt acp "message") "text") then
      jsGetOpt (jsGetOpt acp "message") "text"
    else if jsTruthy (jsGetOpt (jsGetOpt mp "message") "text") then
      jsGetOpt (jsGetOpt mp "message") "text"
    else if jsTruthy (jsGetOpt (jsGet event "message") "text") then
      jsGetOpt (jsGet event "message") "text"
    else .str ""
  -- argument text (src/index.js 214-221)
  let argumentText : JVal :=
    if jsTruthy (jsGetOpt (jsGetOpt acp "message") "argumentText") then
      jsGetOpt (jsGetOpt acp "message") "argumentText"
    else if jsTruthy (jsGetOpt (jsGet event "message") "argumentText") then
      jsGetOpt (jsGet event "message") "argumentText"
    else if jsTruthy (jsGetOpt (jsGet event "appCommand") "argumentText") then
      jsGetOpt (jsGet event "appCommand") "argumentText"
    else .str ""
  -- command id (src/index.js 224-227)
  let commandId := jsOr (jsOr (jsOr
    (jsGetOpt (jsGetOpt acp "appCommandMetadata") "appCommandId")
    (jsGet event "commandId"))
    (jsGetOpt (jsGet event "appCommand") "commandId"))
    (.str "")
  -- normalized message text (src/index.js 233-236)
  let messageText := cleanMessageText (jsToString (jsOr rawText (.str "")))
  -- command name (src/index.js 239-241)
  let commandName := jsOr (jsOr
    (jsGetOpt (jsGetOpt (jsIdxOpt (jsGetOpt (jsGetOpt acp "message") "annotations") 0)
      "slashCommand") "commandName")
    (jsGetOpt (jsGet event "appCommand") "commandName"))
    (.str "")
  appCommandRoute env orc messageText commandName commandId argumentText

/-- `handleAppCommandEvent` (src/index.js 193-281): its own `catch` converts
any failure into a fixed apology reply. -/
def handleAppCommandEvent (env : EnvCfg) (orc : Oracles) (event : JVal) : JVal :=
  match handleAppCommandEventBody env orc event with
  | .ok r => r
  | .error _ => createChatResponse "Sorry, I could not process that command."

/-! ## The HTTP entry point (src/index.js 54-80) -/

/-- The HTTP reply: a status code and a JSON body.  `res.send` uses status
200; the outermost catch sends status 500. -/
structure HttpReply where
  status : Nat
  body : JVal

/-- The `try` body of the `google-chat-bot` HTTP handler (src/index.js
55-75): classify the event and dispatch. -/
def googleChatBotBody (env : EnvCfg) (orc : Oracles) (event : JVal) :
    Except String JVal := do
  let ty ← jsGetE event "type"
  let chat := jsGet event "chat"
  if jvalEqStr ty "MESSAGE" || jsTruthy (jsGetOpt chat "messagePayload") then
    pure (handleMessageEvent env orc event)
  else if jvalEqStr ty "ADDED_TO_SPACE" || jsTruthy (jsGetOpt chat "addedToSpacePayload") then
    handleAddedToSpaceEvent event
  else if jvalEqStr ty "REMOVED_FROM_SPACE" || jsTruthy (jsGetOpt chat "removedFromSpacePayload") then
    handleRemovedFromSpaceEvent event
  else if jvalEqStr ty "CARD_CLICKED" || jsTruthy (jsGet event "action") then
    pure (handleActionEvent event)
  else if jvalEqStr ty "SLASH_COMMAND" || jsTruthy (jsGetOpt chat "appCommandPayload") then
    pure (handleAppCommandEvent env orc event)
  else
    pure (handleMessageEvent env orc event)

/-- The `google-chat-bot` HTTP handler (src/index.js 54-80): the outermost
catch-all converts any escaped exception into a status-500 reply that still
carries a well-formed envelope. -/
def googleChatBot (env : EnvCfg) (orc : Oracles) (event : JVal) : HttpReply :=
  match googleChatBotBody env orc event with
  | .ok r => ⟨200, r⟩
  | .error e => ⟨500, createChatResponse ("Sorry, I encountered an error: " ++ e)⟩

/-! # Claim theorems -/

/-- C7: `generateCosmosDBAuthHeader` signs the canonical string
`{verb lowercased}\n{resourceType}\n{resourceId}\n\n{date lowercased}\n`
with resourceId `dbs/{database}/colls/{container}` (no leading slash) for
document operations, using HMAC-SHA256 keyed with the base64-decoded
account key; the base64-encoded digest is returned as
`type=master&ver=1.0&sig={signature}`, and the returned date equals the
date used in signing (lowercased only inside the signed string). -/
theorem generateCosmosDBAuthHeader_canonical
    (b64decode : String → List Nat) (hmacSha256 : List Nat → String → List Nat)
    (b64encode : List Nat → String)
    (date verb key database container : String) :
    (generateCosmosDBAuthHeader b64decode hmacSha256 b64encode date
        verb "docs" key database container).auth =
      "type=master&ver=1.0&sig=" ++
        b64encode (hmacSha256 (b64decode key)
          (lowerStr verb ++ "\n" ++ "docs" ++ "\n" ++
           ("dbs/" ++ database ++ "/colls/" ++ container) ++ "\n\n" ++
           lowerStr date ++ "\n")) ∧
    (generateCosmosDBAuthHeader b64decode hmacSha256 b64encode date
        verb "docs" key database container).date = date ∧
    ("dbs/" ++ database ++ "/colls/" ++ container).data.head? ≠ some '/' := by
  refine ⟨?_, rfl, ?_⟩
  · show ("type=" ++ "master" ++ "&ver=" ++ "1.0" ++ "&sig=" ++ _ : String) = _
    simp [String.append_assoc]
  · intro h
    rw [show ("dbs/" ++ database ++ "/colls/" ++ container) =
      "dbs/" ++ (database ++ "/colls/" ++ container) by simp [String.append_assoc]] at h
    rw [String.data_append] at h
    simp at h

/-- The witness graph for C10: a chain of eleven single-element arrays with
a `null` at graph node 11, which sits at nesting depth 11 under node 0. -/
def deepNullGraph : Nat → GNode :=
  fun n => if n < 11 then .garr [n + 1] else .gnull

/-- C10 counterexample: `sanitizeForLogging` does *not* return nullish and
non-object values unchanged at every level — a `null` nested beyond the
depth cap is replaced by the marker string.  In `deepNullGraph`, node 11 is
`null` and is reached at depth 11; sanitizing from the root turns it into
`"[Max depth reached]"`, and so does sanitizing it directly at depth 11. -/
theorem sanitizeForLogging_deep_null_replaced :
    deepNullGraph 11 = GNode.gnull ∧
    sanitizeForLogging deepNullGraph 11 11 = .str "[Max depth reached]" ∧
    sanitizeForLogging deepNullGraph 0 0 =
      .arr [.arr [.arr [.arr [.arr [.arr [.arr [.arr [.arr [.arr [.arr
        [.str "[Max depth reached]"]]]]]]]]]]] :=
  ⟨rfl, rfl, rfl⟩

/-- C10 (amended): `sanitizeForLogging` is total and terminating on every
object graph, cyclic or arbitrarily deep (it is a total Lean function over
arbitrary adjacency functions); any value at recursion depth greater than
10 is replaced by `"[Max depth reached]"`, and null, undefined and
non-object values at depths up to the cap are returned unchanged. -/
theorem sanitizeForLogging_depth_cap (g : Nat → GNode) (node depth : Nat) :
    (10 < depth → sanitizeForLogging g node depth = .str "[Max depth reached]") ∧
    (depth ≤ 10 →
      (g node = .gnull → sanitizeForLogging g node depth = .nullv) ∧
      (g node = .gundef → sanitizeForLogging g node depth = .undef) ∧
      (∀ b, g node = .gbool b → sanitizeForLogging g node depth = .boolv b) ∧
      (∀ n, g node = .gnum n → sanitizeForLogging g node depth = .num n) ∧
      (∀ s, g node = .gstr s → sanitizeForLogging g node depth = .str s)) := by
  constructor
  · intro h
    have h0 : 11 - depth = 0 := by omega
    rw [sanitizeForLogging, h0]
    rfl
  · intro h
    obtain ⟨k, hk⟩ : ∃ k, 11 - depth = k + 1 := ⟨10 - depth, by omega⟩
    refine ⟨?_, ?_, ?_, ?_, ?_⟩ <;>
      first
        | (intro hg; rw [sanitizeForLogging, hk, sanitizeAux, hg])
        | (intro x hg; rw [sanitizeForLogging, hk, sanitizeAux, hg])

/-- Witness for C10 (amended) at concrete inputs: depth 11 masks even a
null, depth 3 returns a null unchanged. -/
theorem sanitizeForLogging_depth_cap_witness :
    sanitizeForLogging (fun _ => GNode.gnull) 0 11 = .str "[Max depth reached]" ∧
    sanitizeForLogging (fun _ => GNode.gnull) 0 3 = .nullv :=
  ⟨(sanitizeForLogging_depth_cap (fun _ => GNode.gnull) 0 11).1 (by decide),
   ((sanitizeForLogging_depth_cap (fun _ => GNode.gnull) 0 3).2 (by decide)).1 rfl⟩

/-- C6: asymmetric failure handling in the history store.
`getOrCreateConversation` never raises: it returns a usable locally
generated identifier for every fetch outcome — the id of the attempted
conversation document (`uuidConv`) on a non-success status, and a fresh
identifier (`uuidCatch`) when the network call throws.  `getChatHistory`
propagates failures: a non-200 status raises the `CosmosDB error` carrying
the body, and a thrown network error is rethrown, never converted into an
empty list. -/
theorem historyStore_error_asymmetry :
    (∀ env userId title uuidNoCfg uuidConv uuidCatch fetch,
        ∃ v, getOrCreateConversation env userId "" title
          uuidNoCfg uuidConv uuidCatch fetch = .ok v) ∧
    (∀ env userId title uuidNoCfg uuidConv uuidCatch status text json,
        cosmosConfigured env = true → status ≠ 200 → status ≠ 201 →
        getOrCreateConversation env userId "" title uuidNoCfg uuidConv uuidCatch
          (.resp status text json) = .ok (.str uuidConv)) ∧
    (∀ env userId title uuidNoCfg uuidConv uuidCatch msg,
        cosmosConfigured env = true →
        getOrCreateConversation env userId "" title uuidNoCfg uuidConv uuidCatch
          (.netErr msg) = .ok (.str uuidCatch)) ∧
    (∀ env userId conversationId status text json,
        cosmosConfigured env = true → status ≠ 200 →
        getChatHistory env userId conversationId (.resp status text json) =
          .error ("CosmosDB error: " ++ text)) ∧
    (∀ env userId conversationId msg,
        cosmosConfigured env = true →
        getChatHistory env userId conversationId (.netErr msg) = .error msg) := by
  refine ⟨?_, ?_, ?_, ?_, ?_⟩
  · intro env userId title u1 u2 u3 fetch
    unfold getOrCreateConversation
    split
    · exact ⟨_, rfl⟩
    · split
      · exact ⟨_, rfl⟩
      · cases fetch with
        | netErr msg => exact ⟨_, rfl⟩
        | resp status text json =>
          simp only []
          split
          · exact ⟨_, rfl⟩
          · exact ⟨_, rfl⟩
  · intro env userId title u1 u2 u3 status text json hcfg h200 h201
    unfold getOrCreateConversation
    simp [hcfg, h200, h201]
  · intro env userId title u1 u2 u3 msg hcfg
    unfold getOrCreateConversation
    simp [hcfg]
  · intro env userId conversationId status text json hcfg h200
    unfold getChatHistory
    simp [hcfg, h200]
  · intro env userId conversationId msg hcfg
    unfold getChatHistory
    simp [hcfg]

/-- A fully configured example environment used by the witnesses. -/
def egEnv : EnvCfg where
  geminiApiKey := "k"
  geminiApiUrl := "https://generativelanguage.googleapis.com/v1beta/models/gemini-2.0-flash:generateContent"
  projectID := "p"
  location := "us-west3"
  azureOpenAIEndpoint := "https://ai-service.openai.azure.com"
  azureOpenAIKey := "key"
  azureOpenAIModel := "gpt-5.1"
  azureSearchOpenAIModel := "gpt-4o"
  azureOpenAIApiVersion := "2024-12-01-preview"
  azureOpenAITemperature := .num 0
  azureOpenAIMaxTokens := .num 2000
  azureOpenAITopP := .num 1
  azureOpenAISystemMessage := "You are an AI assistant."
  azureSearchService := "ai-search"
  azureSearchIndex := "wiki"
  azureSearchKey := "skey"
  azureSearchQueryType := "simple"
  azureSearchTopK := .num 5
  azureSearchStrictness := .num 3
  azureSearchEnableInDomain := .boolv true
  azureSearchSemanticSearchConfig := "default"
  azureSearchContentColumns := ""
  azureSearchVectorColumns := ""
  azureSearchTitleColumn := ""
  azureSearchUrlColumn := ""
  azureSearchFilenameColumn := ""
  azureOpenAIEmbeddingName := ""
  searchMaxSearchQueries := ""
  searchAllowPartialResult := .boolv false
  searchIncludeContexts := .undef
  searchVectorizationDimensions := ""
  azureCosmosDBAccount := "db-chatbot"
  azureCosmosDBDatabase := "db_conversation_history"
  azureCosmosDBConversationsContainer := "conversations"
  azureCosmosDBAccountKey := "Y29zbW9z"

/-- Witness for C6 at concrete inputs. -/
theorem historyStore_error_asymmetry_witness :
    getOrCreateConversation egEnv "u" "" "t" "n1" "n2" "n3"
      (.resp 500 "oops" .nullv) = .ok (.str "n2") ∧
    getOrCreateConversation egEnv "u" "" "t" "n1" "n2" "n3"
      (.netErr "down") = .ok (.str "n3") ∧
    getChatHistory egEnv "u" "c" (.resp 429 "throttled" .nullv) =
      .error ("CosmosDB error: " ++ "throttled") ∧
    getChatHistory egEnv "u" "c" (.netErr "down") = .error "down" :=
  ⟨historyStore_error_asymmetry.2.1 egEnv "u" "t" "n1" "n2" "n3" 500 "oops" .nullv
      (by decide) (by decide) (by decide),
   historyStore_error_asymmetry.2.2.1 egEnv "u" "t" "n1" "n2" "n3" "down" (by decide),
   historyStore_error_asymmetry.2.2.2.1 egEnv "u" "c" 429 "throttled" .nullv
      (by decide) (by decide),
   historyStore_error_asymmetry.2.2.2.2 egEnv "u" "c" "down" (by decide)⟩

/-- A well-formed 200 chat-completions response whose single choice carries
the given message content. -/
def azureRespWithContent (mcontent : JVal) : FetchOutcome :=
  .resp 200 ""
    (JVal.obj [("choices", JVal.arr
      [JVal.obj [("message", JVal.obj [("content", mcontent)])]])])

/-- The configuration validation of `callAzureOpenAI` passes. -/
def azureCfgOk (env : EnvCfg) (options : AzOptions) : Prop :=
  env.azureOpenAIEndpoint ≠ "" ∧ env.azureOpenAIKey ≠ "" ∧
  azureSelectModel env options ≠ ""

/-- C5: `buildAzureSearchDataSource` returns `null` whenever the search
service name or index name is absent; with `useSearch` and a null search
configuration the request payload omits `data_sources` entirely, and the
RAG call still completes normally (no raised error) as an ungrounded chat
call. -/
theorem buildAzureSearchDataSource_null_degrades :
    (∀ env : EnvCfg, env.azureSearchService = "" ∨ env.azureSearchIndex = "" →
        buildAzureSearchDataSource env = none) ∧
    (∀ env prompt history options, options.useSearch = true →
        buildAzureSearchDataSource env = none →
        jvalHasKey (buildAzurePayload env prompt history options) "data_sources"
          = false) ∧
    (∀ env prompt history content, azureCfgOk env ⟨true, ""⟩ →
        buildAzureSearchDataSource env = none →
        ∃ r, callAzureOpenAI env prompt history ⟨true, ""⟩
          (azureRespWithContent (.str content)) = .ok r) := by
  refine ⟨?_, ?_, ?_⟩
  · intro env h
    unfold buildAzureSearchDataSource
    rcases h with h | h <;> simp [h]
  · intro env prompt history options hsearch hds
    unfold buildAzurePayload
    simp [hsearch, hds, jvalHasKey]
  · intro env prompt history content ⟨h1, h2, h3⟩
    intro hds
    refine ⟨⟨jsOr (extractAzureContent (.str content)) (.str ""), .nullv⟩, ?_⟩
    have hcfg : (env.azureOpenAIEndpoint = "" || env.azureOpenAIKey = "" ||
        azureSelectModel env ⟨true, ""⟩ = "") = false := by
      simp [h1, h2, h3]
    unfold callAzureOpenAI
    simp only [hcfg, Bool.false_eq_true, if_false]
    rfl

/-- Witness for C5 at a concrete unconfigured-search environment. -/
theorem buildAzureSearchDataSource_null_degrades_witness :
    buildAzureSearchDataSource { egEnv with azureSearchService := "" } = none ∧
    jvalHasKey (buildAzurePayload { egEnv with azureSearchService := "" } "q" [] ⟨true, ""⟩)
      "data_sources" = false ∧
    ∃ r, callAzureOpenAI { egEnv with azureSearchService := "" } "q" [] ⟨true, ""⟩
      (azureRespWithContent (.str "hi")) = .ok r :=
  ⟨buildAzureSearchDataSource_null_degrades.1 _ (Or.inl rfl),
   buildAzureSearchDataSource_null_degrades.2.1 _ "q" [] ⟨true, ""⟩ rfl
     (buildAzureSearchDataSource_null_degrades.1 _ (Or.inl rfl)),
   buildAzureSearchDataSource_null_degrades.2.2 _ "q" [] "hi"
     ⟨by decide, by decide, by decide⟩
     (buildAzureSearchDataSource_null_degrades.1 _ (Or.inl rfl))⟩

/-- C4: the messages array of the Azure client begins with a system turn
exactly when `useSearch` is set (the simple-chat path sends no system turn;
with no history the first turn is then the user turn), and the payload
carries `max_completion_tokens` exactly when `useSearch` is not set. -/
theorem callAzureOpenAI_system_turn_and_max_tokens :
    (∀ env prompt history options,
        (∀ m ∈ history, m.role ≠ JVal.str "system") →
        (((buildAzureMessages env prompt history options).head?.map ChatMsg.role)
            = some (JVal.str "system") ↔ options.useSearch = true)) ∧
    (∀ env prompt history options,
        jvalHasKey (buildAzurePayload env prompt history options)
          "max_completion_tokens" = !options.useSearch) := by
  constructor
  · intro env prompt history options hist
    cases hs : options.useSearch with
    | true =>
      simp [buildAzureMessages, hs]
    | false =>
      simp only [buildAzureMessages, hs, if_neg Bool.false_ne_true, List.nil_append]
      cases history with
      | nil => simp
      | cons m t =>
        have := hist m (List.mem_cons_self m t)
        simp [this]
  · intro env prompt history options
    cases hs : options.useSearch with
    | true =>
      unfold buildAzurePayload
      cases hds : buildAzureSearchDataSource env <;>
        simp [hs, hds, jvalHasKey]
    | false =>
      unfold buildAzurePayload
      simp [hs, jvalHasKey]

/-- Witness for C4 at concrete inputs: with search the first turn is the
system turn, without search it is the user turn and `max_completion_tokens`
is present exactly without search. -/
theorem callAzureOpenAI_system_turn_and_max_tokens_witness :
    (((buildAzureMessages egEnv "q" [] ⟨true, ""⟩).head?.map ChatMsg.role)
        = some (JVal.str "system") ↔ True) ∧
    (((buildAzureMessages egEnv "q" [] ⟨false, ""⟩).head?.map ChatMsg.role)
        = some (JVal.str "system") ↔ False) ∧
    jvalHasKey (buildAzurePayload egEnv "q" [] ⟨false, ""⟩) "max_completion_tokens" = true ∧
    jvalHasKey (buildAzurePayload egEnv "q" [] ⟨true, ""⟩) "max_completion_tokens" = false := by
  refine ⟨?_, ?_, ?_, ?_⟩
  · rw [callAzureOpenAI_system_turn_and_max_tokens.1 egEnv "q" [] ⟨true, ""⟩
      (by intro m hm; cases hm)]
    simp
  · rw [callAzureOpenAI_system_turn_and_max_tokens.1 egEnv "q" [] ⟨false, ""⟩
      (by intro m hm; cases hm)]
    simp
  · rw [callAzureOpenAI_system_turn_and_max_tokens.2 egEnv "q" [] ⟨false, ""⟩]
    rfl
  · rw [callAzureOpenAI_system_turn_and_max_tokens.2 egEnv "q" [] ⟨true, ""⟩]
    rfl

/-- `a || '' || ''` collapses to `a || ''`. -/
theorem jsOr_or_empty (a : JVal) :
    jsOr (jsOr a (.str "")) (.str "") = jsOr a (.str "") := by
  cases h : jsTruthy a with
  | true => simp [jsOr, h]
  | false =>
    have h2 : jsOr a (JVal.str "") = JVal.str "" := by simp [jsOr, h]
    rw [h2]
    rfl

/-- `s || ''` is `s` for a string value. -/
theorem jsOr_str_empty (s : String) : jsOr (.str s) (.str "") = .str s := by
  unfold jsOr
  by_cases h : s = ""
  · subst h
    rfl
  · simp [jsTruthy, h]

/-- With a passing configuration check, a well-formed 200 response with one
choice normalizes to `content || ''` and null citations. -/
theorem callAzureOpenAI_ok_content (env : EnvCfg) (prompt : String)
    (history : List ChatMsg) (options : AzOptions) (h : azureCfgOk env options)
    (mcontent : JVal) :
    callAzureOpenAI env prompt history options (azureRespWithContent mcontent) =
      .ok ⟨jsOr (extractAzureContent mcontent) (.str ""), .nullv⟩ := by
  obtain ⟨h1, h2, h3⟩ := h
  have hcfg : (env.azureOpenAIEndpoint = "" || env.azureOpenAIKey = "" ||
      azureSelectModel env options = "") = false := by
    simp [h1, h2, h3]
  unfold callAzureOpenAI
  simp only [hcfg, Bool.false_eq_true, if_false]
  rfl

/-- C8: the response normalizer of the Azure client, on a 200 response with
a non-empty choices array, yields the message content itself when it is a
string; the newline-join of the block texts when it is an array (a block
contributing itself when a string, else its string `text` field, else its
string `content` field, else `''`); the `text`-or-`content` sub-field
(JS `||` semantics, else `''`) when it is a non-array object; and the empty
string in every other case — and it never throws on an
unexpected-but-present content field. -/
theorem azure_content_normalization (env : EnvCfg) (prompt : String)
    (history : List ChatMsg) (options : AzOptions) (h : azureCfgOk env options) :
    (∀ s, callAzureOpenAI env prompt history options
        (azureRespWithContent (.str s)) = .ok ⟨.str s, .nullv⟩) ∧
    (∀ blocks, callAzureOpenAI env prompt history options
        (azureRespWithContent (.arr blocks)) =
          .ok ⟨.str (String.intercalate "\n" (blocks.map azureBlockText)), .nullv⟩) ∧
    (∀ s, azureBlockText (.str s) = s) ∧
    (∀ fields, azureBlockText (.obj fields) =
        (match jsGet (.obj fields) "text" with
         | .str t => t
         | _ =>
           match jsGet (.obj fields) "content" with
           | .str t => t
           | _ => "")) ∧
    (azureBlockText .nullv = "") ∧
    (∀ fields, callAzureOpenAI env prompt history options
        (azureRespWithContent (.obj fields)) =
          .ok ⟨jsOr (jsOr (jsGet (.obj fields) "text") (jsGet (.obj fields) "content"))
                (.str ""), .nullv⟩) ∧
    (callAzureOpenAI env prompt history options (azureRespWithContent .nullv) =
        .ok ⟨.str "", .nullv⟩) ∧
    (∀ n, callAzureOpenAI env prompt history options
        (azureRespWithContent (.num n)) = .ok ⟨.str "", .nullv⟩) ∧
    (∀ b, callAzureOpenAI env prompt history options
        (azureRespWithContent (.boolv b)) = .ok ⟨.str "", .nullv⟩) ∧
    (∀ mcontent, ∃ r, callAzureOpenAI env prompt history options
        (azureRespWithContent mcontent) = .ok r) := by
  refine ⟨?_, ?_, ?_, ?_, rfl, ?_, ?_, ?_, ?_, ?_⟩
  · intro s
    rw [callAzureOpenAI_ok_content env prompt history options h]
    show Except.ok (AzureResult.mk (jsOr (.str s) (.str "")) .nullv) = _
    rw [jsOr_str_empty]
  · intro blocks
    rw [callAzureOpenAI_ok_content env prompt history options h]
    show Except.ok (AzureResult.mk (jsOr (.str (String.intercalate "\n" (blocks.map azureBlockText))) (.str "")) .nullv) = _
    rw [jsOr_str_empty]
  · intro s
    rfl
  · intro fields
    unfold azureBlockText
    simp only [jsTruthy]
    rfl
  · intro fields
    rw [callAzureOpenAI_ok_content env prompt history options h]
    show Except.ok (AzureResult.mk (jsOr (jsOr (jsOr (jsGet (.obj fields) "text") (jsGet (.obj fields) "content")) (.str "")) (.str "")) .nullv) = _
    rw [jsOr_or_empty]
  · rw [callAzureOpenAI_ok_content env prompt history options h]
    rfl
  · intro n
    rw [callAzureOpenAI_ok_content env prompt history options h]
    rfl
  · intro b
    rw [callAzureOpenAI_ok_content env prompt history options h]
    rfl
  · intro mcontent
    exact ⟨_, callAzureOpenAI_ok_content env prompt history options h mcontent⟩

/-- Witness for C8 on concrete inputs covering the string, array, object
and other shapes. -/
theorem azure_content_normalization_witness :
    callAzureOpenAI egEnv "q" [] ⟨false, ""⟩ (azureRespWithContent (.str "hi")) =
      .ok ⟨.str "hi", .nullv⟩ ∧
    callAzureOpenAI egEnv "q" [] ⟨false, ""⟩
        (azureRespWithContent (.arr [.str "a", .obj [("text", .str "b")],
          .obj [("content", .str "c")], .num 7])) =
      .ok ⟨.str "a\nb\nc\n", .nullv⟩ ∧
    callAzureOpenAI egEnv "q" [] ⟨false, ""⟩
        (azureRespWithContent (.obj [("content", .str "z")])) =
      .ok ⟨.str "z", .nullv⟩ ∧
    callAzureOpenAI egEnv "q" [] ⟨false, ""⟩ (azureRespWithContent (.num 3)) =
      .ok ⟨.str "", .nullv⟩ := by
  have h : azureCfgOk egEnv ⟨false, ""⟩ := ⟨by decide, by decide, by decide⟩
  refine ⟨?_, ?_, ?_, ?_⟩
  · exact (azure_content_normalization egEnv "q" [] ⟨false, ""⟩ h).1 "hi"
  · exact (azure_content_normalization egEnv "q" [] ⟨false, ""⟩ h).2.1
      [.str "a", .obj [("text", .str "b")], .obj [("content", .str "c")], .num 7]
  · exact ((azure_content_normalization egEnv "q" [] ⟨false, ""⟩ h).2.2.2.2.2.1)
      [("content", .str "z")]
  · exact (azure_content_normalization egEnv "q" [] ⟨false, ""⟩ h).2.2.2.2.2.2.2.1 3

/-- A well-formed 200 chat-completions response whose single choice carries
the given message content and a `context.citations` value. -/
def azureRespWithCitations (mcontent citations : JVal) : FetchOutcome :=
  .resp 200 ""
    (JVal.obj [("choices", JVal.arr
      [JVal.obj [("message", JVal.obj
        [("content", mcontent),
         ("context", JVal.obj [("citations", citations)])])]])])

/-- With a passing configuration check, a 200 response carrying truthy
citations normalizes to `content || ''` and those citations, unmodified. -/
theorem callAzureOpenAI_ok_citations (env : EnvCfg) (prompt : String)
    (history : List ChatMsg) (options : AzOptions) (h : azureCfgOk env options)
    (mcontent citations : JVal) (hcit : jsTruthy citations = true) :
    callAzureOpenAI env prompt history options
        (azureRespWithCitations mcontent citations) =
      .ok ⟨jsOr (extractAzureContent mcontent) (.str ""), citations⟩ := by
  obtain ⟨h1, h2, h3⟩ := h
  have hcfg : (env.azureOpenAIEndpoint = "" || env.azureOpenAIKey = "" ||
      azureSelectModel env options = "") = false := by
    simp [h1, h2, h3]
  unfold callAzureOpenAI
  simp only [hcfg, Bool.false_eq_true, if_false]
  show Except.ok (AzureResult.mk (jsOr (extractAzureContent mcontent) (JVal.str ""))
    (if jsTruthy citations = true then citations else JVal.nullv)) = _
  rw [if_pos hcit]

/-- C3 counterexample: the wiki handler's visible-text cleaning is not a pure
marker removal that leaves all surrounding text unchanged — it also trims.
On `" x [doc 1]"` the marker removal alone yields `" x "`, but the handler
produces `"x"`. -/
theorem wiki_citation_strip_not_pure_removal :
    stripDocCitations " x [doc 1]" = "x" ∧
    String.mk (removeDocRefs " x [doc 1]".data) = " x " ∧
    ("x" : String) ≠ " x " :=
  ⟨rfl, rfl, by decide⟩

/-- C3 (amended): the wiki handler removes every inline `[doc N]` marker
(case-insensitive, optional whitespace before the digits) from the visible
reply text, leaving the interior surrounding text unchanged, and then trims
leading/trailing whitespace from the result; the response normalizer passes
any `choices[0].message.context.citations` value through unmodified. -/
theorem wiki_citation_handling :
    (∀ s, stripDocCitations s = jsTrimS ⟨removeDocRefs s.data⟩) ∧
    (String.mk (removeDocRefs ("see [doc 3] and [Doc12]").data) = "see  and ") ∧
    (stripDocCitations "see [doc 3] and [Doc12]" = "see  and") ∧
    (∀ env prompt content, azureCfgOk env ⟨true, ""⟩ → jsTrimS prompt ≠ "" →
        handleWikiRequest env prompt (azureRespWithContent (.str content)) =
          createChatResponse ("üìö Wiki Response:\n\n" ++
            stripDocCitations content)) ∧
    (∀ env prompt history options mcontent citations, azureCfgOk env options →
        jsTruthy citations = true →
        callAzureOpenAI env prompt history options
            (azureRespWithCitations mcontent citations) =
          .ok ⟨jsOr (extractAzureContent mcontent) (.str ""), citations⟩) := by
  refine ⟨fun s => rfl, rfl, rfl, ?_, ?_⟩
  · intro env prompt content hcfg hp
    have hp0 : prompt ≠ "" := by
      intro h
      exact hp (by rw [h]; rfl)
    unfold handleWikiRequest
    have hc : (prompt = "" || jsTrimS prompt = "") = false := by simp [hp0, hp]
    simp only [hc, Bool.false_eq_true, if_false]
    rw [callAzureOpenAI_ok_content env prompt [] ⟨true, ""⟩ hcfg (.str content)]
    have hred : jsOr (jsOr (extractAzureContent (JVal.str content)) (JVal.str ""))
        (JVal.str "") = JVal.str content := by
      show jsOr (jsOr (JVal.str content) (JVal.str "")) (JVal.str "") = JVal.str content
      rw [jsOr_str_empty, jsOr_str_empty]
    show (match (match jsOr (jsOr (extractAzureContent (JVal.str content)) (JVal.str ""))
          (JVal.str "") with
        | JVal.str s => (pure (stripDocCitations s) : Except String String)
        | _ => Except.error "TypeError: cleanContent.replace is not a function") with
      | Except.ok cleanContent =>
        createChatResponse ("üìö Wiki Response:\n\n" ++ cleanContent)
      | Except.error e =>
        createChatResponse ("Sorry, I encountered an error with the wiki search: " ++ e)) = _
    rw [hred]
    rfl
  · intro env prompt history options mcontent citations hcfg hcit
    exact callAzureOpenAI_ok_citations env prompt history options hcfg mcontent citations hcit

/-- Witness for C3 (amended): a concrete RAG reply has its `[doc1]` marker
removed from the visible text, and concrete citations pass through. -/
theorem wiki_citation_handling_witness :
    handleWikiRequest egEnv "where is X" (azureRespWithContent (.str "Answer [doc1].")) =
      createChatResponse ("üìö Wiki Response:\n\n" ++
        stripDocCitations "Answer [doc1].") ∧
    callAzureOpenAI egEnv "q" [] ⟨true, ""⟩
        (azureRespWithCitations (.str "c") (.arr [.str "cite"])) =
      .ok ⟨jsOr (extractAzureContent (.str "c")) (.str ""), .arr [.str "cite"]⟩ :=
  ⟨wiki_citation_handling.2.2.2.1 egEnv "where is X" "Answer [doc1]."
     ⟨by decide, by decide, by decide⟩ (by decide),
   wiki_citation_handling.2.2.2.2 egEnv "q" [] ⟨true, ""⟩ (.str "c")
     (.arr [.str "cite"]) ⟨by decide, by decide, by decide⟩ rfl⟩

/-! ## Every reply is the fixed envelope (towards C1) -/

@[simp]
theorem exceptBind_ok {ε α β : Type} (a : α) (f : α → Except ε β) :
    (Except.ok a >>= f) = f a := rfl

@[simp]
theorem exceptBind_error {ε α β : Type} (e : ε) (f : α → Except ε β) :
    ((Except.error e : Except ε α) >>= f) = Except.error e := rfl

@[simp]
theorem exceptPure {ε α : Type} (a : α) : (pure a : Except ε α) = Except.ok a := rfl

/-- `handleAIRequest` always returns an envelope. -/
theorem handleAIRequest_envelope (p prov : String) (g : Except String String) :
    ∃ t, handleAIRequest p prov g = createChatResponse t := by
  unfold handleAIRequest
  split
  · exact ⟨_, rfl⟩
  · split
    · exact ⟨_, rfl⟩
    · cases g with
      | ok r => exact ⟨_, rfl⟩
      | error e => exact ⟨_, rfl⟩

/-- `handleWikiRequest` always returns an envelope. -/
theorem handleWikiRequest_envelope (env : EnvCfg) (p : String) (azure : FetchOutcome) :
    ∃ t, handleWikiRequest env p azure = createChatResponse t := by
  unfold handleWikiRequest
  split
  · exact ⟨_, rfl⟩
  · split
    · exact ⟨_, rfl⟩
    · exact ⟨_, rfl⟩

/-- `handleChatGPTRequest` always returns an envelope. -/
theorem handleChatGPTRequest_envelope (env : EnvCfg) (p : String) (azure : FetchOutcome) :
    ∃ t, handleChatGPTRequest env p azure = createChatResponse t := by
  unfold handleChatGPTRequest
  split
  · exact ⟨_, rfl⟩
  · split
    · exact ⟨_, rfl⟩
    · exact ⟨_, rfl⟩

set_option maxHeartbeats 1000000 in
/-- A successful `messageRoute` is an envelope. -/
theorem messageRoute_ok (env : EnvCfg) (orc : Oracles) (mtext : JVal)
    (r : JVal) (h : messageRoute env orc mtext = .ok r) :
    ∃ t, r = createChatResponse t := by
  unfold messageRoute at h
  split at h
  · injection h with h2
    subst h2
    exact ⟨_, rfl⟩
  · split at h
    next s hns =>
      dsimp only at h
      generalize cleanMessageText s = mt at h
      generalize parseCommand mt = pc at h
      repeat' split at h
      all_goals first
        | (injection h with h2
           subst h2
           first
            | exact ⟨_, rfl⟩
            | exact handleAIRequest_envelope _ _ _
            | exact handleWikiRequest_envelope _ _ _
            | exact handleChatGPTRequest_envelope _ _ _)
        | simp at h
    next _ _ => simp at h

/-- A successful `handleMessageEvent` body is an envelope. -/
theorem handleMessageEventBody_ok (env : EnvCfg) (orc : Oracles) (event : JVal)
    (r : JVal) (h : handleMessageEventBody env orc event = .ok r) :
    ∃ t, r = createChatResponse t := by
  unfold handleMessageEventBody at h
  cases hch : jsGetE event "chat" with
  | error e =>
    rw [hch] at h
    simp at h
  | ok chat =>
    rw [hch] at h
    simp only [exceptBind_ok] at h
    exact messageRoute_ok _ _ _ _ h

/-- A successful `handleMessageEvent` always returns an envelope. -/
theorem handleMessageEvent_envelope (env : EnvCfg) (orc : Oracles) (event : JVal) :
    ∃ t, handleMessageEvent env orc event = createChatResponse t := by
  unfold handleMessageEvent
  cases hb : handleMessageEventBody env orc event with
  | ok r =>
    obtain ⟨t, ht⟩ := handleMessageEventBody_ok env orc event r hb
    exact ⟨t, ht⟩
  | error e => exact ⟨_, rfl⟩

set_option maxHeartbeats 1000000 in
/-- A successful `appCommandRoute` is an envelope. -/
theorem appCommandRoute_ok (env : EnvCfg) (orc : Oracles) (messageText : String)
    (commandName commandId argumentText : JVal) (r : JVal)
    (h : appCommandRoute env orc messageText commandName commandId argumentText
      = .ok r) : ∃ t, r = createChatResponse t := by
  unfold appCommandRoute at h
  cases hat : (if jsTruthy argumentText then jsCallTrim argumentText
      else pure argumentText : Except String JVal) <;>
    rw [hat] at h <;>
    cases hlt : jsCallTrim (jsOr argumentText (JVal.str "")) <;>
      rw [hlt] at h <;>
      (try simp only [exceptBind_ok, exceptBind_error, exceptPure] at h) <;>
      repeat' split at h
  all_goals first
    | (injection h with h2
       subst h2
       first
        | exact ⟨_, rfl⟩
        | exact handleAIRequest_envelope _ _ _
        | exact handleWikiRequest_envelope _ _ _
        | exact handleChatGPTRequest_envelope _ _ _)
    | (injection h)
    | simp at h

/-- A successful `handleAppCommandEvent` body is an envelope. -/
theorem handleAppCommandEventBody_ok (env : EnvCfg) (orc : Oracles) (event : JVal)
    (r : JVal) (h : handleAppCommandEventBody env orc event = .ok r) :
    ∃ t, r = createChatResponse t := by
  unfold handleAppCommandEventBody at h
  cases hch : jsGetE event "chat" with
  | error e =>
    rw [hch] at h
    simp at h
  | ok chat =>
    rw [hch] at h
    simp only [exceptBind_ok] at h
    exact appCommandRoute_ok _ _ _ _ _ _ _ h

/-- `handleAppCommandEvent` always returns an envelope. -/
theorem handleAppCommandEvent_envelope (env : EnvCfg) (orc : Oracles) (event : JVal) :
    ∃ t, handleAppCommandEvent env orc event = createChatResponse t := by
  unfold handleAppCommandEvent
  cases hb : handleAppCommandEventBody env orc event with
  | ok r =>
    obtain ⟨t, ht⟩ := handleAppCommandEventBody_ok env orc event r hb
    exact ⟨t, ht⟩
  | error e => exact ⟨_, rfl⟩

/-- A successful `handleAddedToSpaceEvent` is an envelope. -/
theorem handleAddedToSpaceEvent_ok (event : JVal) (r : JVal)
    (h : handleAddedToSpaceEvent event = .ok r) : ∃ t, r = createChatResponse t := by
  unfold handleAddedToSpaceEvent at h
  cases hch : jsGetE event "chat" with
  | error e => rw [hch] at h; simp at h
  | ok chat =>
    rw [hch] at h
    simp only [exceptBind_ok] at h
    cases h
    exact ⟨_, rfl⟩

/-- A successful `handleRemovedFromSpaceEvent` is an envelope. -/
theorem handleRemovedFromSpaceEvent_ok (event : JVal) (r : JVal)
    (h : handleRemovedFromSpaceEvent event = .ok r) : ∃ t, r = createChatResponse t := by
  unfold handleRemovedFromSpaceEvent at h
  cases hch : jsGetE event "chat" with
  | error e => rw [hch] at h; simp at h
  | ok chat =>
    rw [hch] at h
    simp only [exceptBind_ok] at h
    cases h
    exact ⟨_, rfl⟩

/-- A successful dispatch body is an envelope. -/
theorem googleChatBotBody_ok (env : EnvCfg) (orc : Oracles) (event : JVal)
    (r : JVal) (h : googleChatBotBody env orc event = .ok r) :
    ∃ t, r = createChatResponse t := by
  unfold googleChatBotBody at h
  cases hty : jsGetE event "type" with
  | error e => rw [hty] at h; simp at h
  | ok ty =>
    rw [hty] at h
    simp only [exceptBind_ok] at h
    split at h
    · cases h
      exact handleMessageEvent_envelope _ _ _
    · split at h
      · exact handleAddedToSpaceEvent_ok _ _ h
      · split at h
        · exact handleRemovedFromSpaceEvent_ok _ _ h
        · split at h
          · cases h
            exact ⟨_, rfl⟩
          · split at h
            · cases h
              exact handleAppCommandEvent_envelope _ _ _
            · cases h
              exact handleMessageEvent_envelope _ _ _

/-- C1: for every inbound webhook payload (any JSON value) and any outcome
of the provider calls, the HTTP handler replies with exactly the fixed
4-level envelope around a string; only the outermost catch-all uses a
failure status, and then its body is still the envelope wrapping the error
message prefixed by the apology; provider-handler exceptions are caught and
converted into an envelope whose text contains the error message prefixed
by an apology. -/
theorem googleChatBot_always_envelope :
    (∀ env orc event, ∃ t : String,
        (googleChatBot env orc event).body = createChatResponse t) ∧
    (∀ env orc event, (googleChatBot env orc event).status = 200 ∨
        ∃ e, googleChatBotBody env orc event = .error e ∧
          googleChatBot env orc event =
            ⟨500, createChatResponse ("Sorry, I encountered an error: " ++ e)⟩) ∧
    (∀ prompt e, jsTrimS prompt ≠ "" →
        handleAIRequest prompt "gemini" (.error e) =
          createChatResponse
            ("Sorry, I encountered an error with the gemini service: " ++ e)) ∧
    (∀ env prompt e, azureCfgOk env ⟨true, ""⟩ → jsTrimS prompt ≠ "" →
        handleWikiRequest env prompt (.netErr e) =
          createChatResponse
            ("Sorry, I encountered an error with the wiki search: " ++ e)) := by
  refine ⟨?_, ?_, ?_, ?_⟩
  · intro env orc event
    unfold googleChatBot
    cases hb : googleChatBotBody env orc event with
    | ok r =>
      obtain ⟨t, ht⟩ := googleChatBotBody_ok env orc event r hb
      exact ⟨t, ht⟩
    | error e => exact ⟨_, rfl⟩
  · intro env orc event
    unfold googleChatBot
    cases hb : googleChatBotBody env orc event with
    | ok r => exact Or.inl rfl
    | error e => exact Or.inr ⟨e, rfl, rfl⟩
  · intro prompt e hp
    have hp0 : prompt ≠ "" := fun hq => hp (by rw [hq]; rfl)
    unfold handleAIRequest
    have hc : (prompt = "" || jsTrimS prompt = "") = false := by simp [hp0, hp]
    simp only [hc, Bool.false_eq_true, if_false]
    rfl
  · intro env prompt e hcfg hp
    have hp0 : prompt ≠ "" := fun hq => hp (by rw [hq]; rfl)
    have hA : callAzureOpenAI env prompt [] ⟨true, ""⟩ (.netErr e) = .error e := by
      obtain ⟨h1, h2, h3⟩ := hcfg
      have hcfg2 : (env.azureOpenAIEndpoint = "" || env.azureOpenAIKey = "" ||
          azureSelectModel env ⟨true, ""⟩ = "") = false := by simp [h1, h2, h3]
      unfold callAzureOpenAI
      simp only [hcfg2, Bool.false_eq_true, if_false]
    unfold handleWikiRequest
    have hc : (prompt = "" || jsTrimS prompt = "") = false := by simp [hp0, hp]
    simp only [hc, Bool.false_eq_true, if_false]
    rw [hA]
    rfl

/-- Witness for C1 at concrete inputs: caught provider errors become
apology envelopes, and a concrete event gets an envelope body. -/
theorem googleChatBot_always_envelope_witness :
    handleAIRequest "hello" "gemini" (.error "boom") =
      createChatResponse
        ("Sorry, I encountered an error with the gemini service: " ++ "boom") ∧
    handleWikiRequest egEnv "hello" (.netErr "down") =
      createChatResponse
        ("Sorry, I encountered an error with the wiki search: " ++ "down") ∧
    ∃ t, (googleChatBot egEnv ⟨.ok "g", .netErr "x"⟩
        (.obj [("type", .str "MESSAGE"),
               ("message", .obj [("text", .str "hi")])])).body =
      createChatResponse t :=
  ⟨googleChatBot_always_envelope.2.2.1 "hello" "boom" (by decide),
   googleChatBot_always_envelope.2.2.2 egEnv "hello" "down"
     ⟨by decide, by decide, by decide⟩ (by decide),
   googleChatBot_always_envelope.1 egEnv ⟨.ok "g", .netErr "x"⟩ _⟩

/-! ## The command grammar (towards C2) -/

/-- `dropWhile` is idempotent. -/
theorem dropWhile_dropWhile (p : Char → Bool) (l : List Char) :
    (l.dropWhile p).dropWhile p = l.dropWhile p := by
  induction l with
  | nil => rfl
  | cons a t ih =>
    rw [List.dropWhile_cons]
    split
    · exact ih
    · rw [List.dropWhile_cons]
      simp_all

/-- Trimming absorbs a previous strip of leading whitespace. -/
theorem jsTrim_dropWhile (l : List Char) : jsTrim (l.dropWhile jsWs) = jsTrim l := by
  unfold jsTrim
  rw [dropWhile_dropWhile]

/-- Case-insensitive stripping succeeds exactly on the word's length. -/
theorem ciStrip_append (pre rest wl : List Char) (h : lowerList pre = wl) :
    ciStrip wl (pre ++ rest) = some rest := by
  induction pre generalizing wl with
  | nil =>
    subst h
    rfl
  | cons c pre' ih =>
    subst h
    simp only [lowerList, List.map_cons, List.cons_append, ciStrip, if_pos rfl]
    exact ih _ rfl

/-- Case-insensitive stripping fails on a mismatching head. -/
theorem ciStrip_none_head (a c : Char) (as cs : List Char) (h : c.toLower ≠ a) :
    ciStrip (a :: as) (c :: cs) = none := by
  simp [ciStrip, h]

/-- The numeric-shortcut pattern fails unless the head is a digit 2-5. -/
theorem matchNumeric_none_head (x : Char) (xs : List Char)
    (h2 : x ≠ '2') (h3 : x ≠ '3') (h4 : x ≠ '4') (h5 : x ≠ '5') :
    matchNumeric (x :: xs) = none := by
  cases xs <;> simp [matchNumeric, h2, h3, h4, h5]

/-- `stripOptSlash` is the identity when the head is not a slash. -/
theorem stripOptSlash_ne (p0 : Char) (tl : List Char) (h : p0 ≠ '/') :
    stripOptSlash (p0 :: tl) = p0 :: tl := by
  unfold stripOptSlash
  split
  next t heq =>
    injection heq with h1 h2
    exact absurd h1 h
  next => rfl

/-- The word pattern matches on a decomposition: optional slash, the word
case-insensitively, then a word boundary. -/
theorem matchWord_decomp (w : String) (l pre rest : List Char) (p0 : Char)
    (pre' : List Char) (hpre : pre = p0 :: pre') (hw : lowerList pre = w.data)
    (hslash : p0 ≠ '/') (hb : wordBoundary rest = true)
    (hl : l = pre ++ rest ∨ l = '/' :: (pre ++ rest)) :
    matchWord w.data l = some rest := by
  subst hpre
  rcases hl with hl | hl <;> subst hl
  · rw [matchWord, List.cons_append, stripOptSlash_ne p0 _ hslash,
      ← List.cons_append, ciStrip_append _ _ _ hw]
    simp [hb]
  · rw [matchWord, show stripOptSlash ('/' :: ((p0 :: pre') ++ rest)) =
      (p0 :: pre') ++ rest from rfl, ciStrip_append _ _ _ hw]
    simp [hb]

/-- The word pattern fails when the head (after the optional slash) does not
case-insensitively match the word's first letter. -/
theorem matchWord_head_ne (a p0 : Char) (as tl : List Char)
    (hne : p0.toLower ≠ a) (hslash : p0 ≠ '/') :
    matchWord (a :: as) (p0 :: tl) = none := by
  rw [matchWord, stripOptSlash_ne p0 _ hslash, ciStrip_none_head a p0 as tl hne]

/-- The word pattern fails after a slash when the next character does not
case-insensitively match the word's first letter. -/
theorem matchWord_head_ne_slash (a p0 : Char) (as tl : List Char)
    (hne : p0.toLower ≠ a) :
    matchWord (a :: as) ('/' :: p0 :: tl) = none := by
  rw [matchWord, show stripOptSlash ('/' :: p0 :: tl) = p0 :: tl from rfl,
    ciStrip_none_head a p0 as tl hne]

/-- C2 counterexample: the numeric shortcut matches on the *lowercased*
copy of the cleaned text, so its argument is lowercased — it is not the
trimmed remainder of the cleaned text.  On `"2 A"` the remainder is `"A"`
but `parseCommand` returns argument `"a"`. -/
theorem parseCommand_numeric_lowercases :
    parseCommand "2 A" = ⟨"gemini", "a"⟩ ∧ ("a" : String) ≠ "A" :=
  ⟨by decide, by decide⟩

/-- C2 (amended): `parseCommand` applies the command grammar in priority
order with first match winning: (1) a leading digit 2/3/4/5 of the
lowercased cleaned text followed by whitespace maps to
gemini/help/wiki/chatgpt, with the trimmed remainder *of the lowercased
text* as argument (empty for 3); (2) otherwise a case-insensitive
optional-slash-plus-word match with a word boundary, for gemini, wiki,
chatgpt, help in that order, yields that command with the trimmed remainder
as argument (help always yields an empty argument); (3) otherwise the
command is none (`""`) and the argument is the full cleaned text. -/
theorem parseCommand_grammar (s : String) :
    (∀ d w rest, (lowerStr (cleanParse s)).data = d :: w :: rest → jsWs w = true →
      ((d = '2' → parseCommand s = ⟨"gemini", ⟨jsTrim rest⟩⟩) ∧
       (d = '3' → parseCommand s = ⟨"help", ""⟩) ∧
       (d = '4' → parseCommand s = ⟨"wiki", ⟨jsTrim rest⟩⟩) ∧
       (d = '5' → parseCommand s = ⟨"chatgpt", ⟨jsTrim rest⟩⟩))) ∧
    (∀ w pre rest, w ∈ (["gemini", "wiki", "chatgpt"] : List String) →
      ((cleanParse s).data = pre ++ rest ∨
        (cleanParse s).data = '/' :: (pre ++ rest)) →
      lowerList pre = w.data → wordBoundary rest = true →
      parseCommand s = ⟨w, ⟨jsTrim rest⟩⟩) ∧
    (∀ pre rest,
      ((cleanParse s).data = pre ++ rest ∨
        (cleanParse s).data = '/' :: (pre ++ rest)) →
      lowerList pre = "help".data → wordBoundary rest = true →
      parseCommand s = ⟨"help", ""⟩) ∧
    (matchNumeric (lowerList (cleanParse s).data) = none →
      matchWord "gemini".data (cleanParse s).data = none →
      matchWord "wiki".data (cleanParse s).data = none →
      matchWord "chatgpt".data (cleanParse s).data = none →
      matchWord "help".data (cleanParse s).data = none →
      parseCommand s = ⟨"", cleanParse s⟩) := by
  refine ⟨?_, ?_, ?_, ?_⟩
  · -- (1) numeric shortcuts
    intro d w rest hl hw
    have hlv : lowerList (cleanParse s).data = d :: w :: rest := hl
    refine ⟨?_, ?_, ?_, ?_⟩ <;> intro hd <;> subst hd <;>
      (show parseCommandClean (cleanParse s).data = _
       unfold parseCommandClean
       rw [hlv]) <;>
      simp [matchNumeric, hw, jsTrim_dropWhile]
  · -- (2) word commands
    intro w pre rest hmem hl hww hb
    simp only [List.mem_cons, List.mem_singleton, List.not_mem_nil, or_false] at hmem
    have hpre : ∃ p0 pre', pre = p0 :: pre' := by
      cases pre with
      | nil =>
        exfalso
        rcases hmem with rfl | rfl | rfl <;> simp [lowerList] at hww
      | cons p0 pre' => exact ⟨p0, pre', rfl⟩
    obtain ⟨p0, pre', rfl⟩ := hpre
    have hcons : lowerList (p0 :: pre') = p0.toLower :: lowerList pre' := rfl
    rcases hmem with rfl | rfl | rfl
    · -- gemini
      have hp0 : p0.toLower = 'g' := by
        rw [hcons] at hww
        injection hww
      have hslash : p0 ≠ '/' := by
        intro hq
        rw [hq] at hp0
        exact absurd hp0 (by decide)
      have hmw : matchWord "gemini".data (cleanParse s).data = some rest :=
        matchWord_decomp "gemini" _ _ _ p0 pre' rfl hww hslash hb hl
      have hnum : matchNumeric (lowerList (cleanParse s).data) = none := by
        rcases hl with hl | hl <;> rw [hl]
        · rw [List.cons_append]
          show matchNumeric (p0.toLower :: lowerList (pre' ++ rest)) = none
          rw [hp0]
          exact matchNumeric_none_head _ _ (by decide) (by decide) (by decide) (by decide)
        · show matchNumeric ('/'.toLower :: lowerList ((p0 :: pre') ++ rest)) = none
          exact matchNumeric_none_head _ _ (by decide) (by decide) (by decide) (by decide)
      show parseCommandClean (cleanParse s).data = _
      unfold parseCommandClean
      dsimp only
      rw [hnum, hmw]
      dsimp only
      rw [jsTrim_dropWhile]
    · -- wiki
      have hp0 : p0.toLower = 'w' := by
        rw [hcons] at hww
        injection hww
      have hslash : p0 ≠ '/' := by
        intro hq
        rw [hq] at hp0
        exact absurd hp0 (by decide)
      have hmw : matchWord "wiki".data (cleanParse s).data = some rest :=
        matchWord_decomp "wiki" _ _ _ p0 pre' rfl hww hslash hb hl
      have hgem : matchWord "gemini".data (cleanParse s).data = none := by
        rcases hl with hl | hl <;> rw [hl]
        · rw [List.cons_append]
          exact matchWord_head_ne _ _ _ _ (by rw [hp0]; decide) hslash
        · rw [List.cons_append]
          exact matchWord_head_ne_slash _ _ _ _ (by rw [hp0]; decide)
      have hnum : matchNumeric (lowerList (cleanParse s).data) = none := by
        rcases hl with hl | hl <;> rw [hl]
        · rw [List.cons_append]
          show matchNumeric (p0.toLower :: lowerList (pre' ++ rest)) = none
          rw [hp0]
          exact matchNumeric_none_head _ _ (by decide) (by decide) (by decide) (by decide)
        · show matchNumeric ('/'.toLower :: lowerList ((p0 :: pre') ++ rest)) = none
          exact matchNumeric_none_head _ _ (by decide) (by decide) (by decide) (by decide)
      show parseCommandClean (cleanParse s).data = _
      unfold parseCommandClean
      dsimp only
      rw [hnum, hgem, hmw]
      dsimp only
      rw [jsTrim_dropWhile]
    · -- chatgpt
      have hp0 : p0.toLower = 'c' := by
        rw [hcons] at hww
        injection hww
      have hslash : p0 ≠ '/' := by
        intro hq
        rw [hq] at hp0
        exact absurd hp0 (by decide)
      have hmw : matchWord "chatgpt".data (cleanParse s).data = some rest :=
        matchWord_decomp "chatgpt" _ _ _ p0 pre' rfl hww hslash hb hl
      have hgem : matchWord "gemini".data (cleanParse s).data = none := by
        rcases hl with hl | hl <;> rw [hl]
        · rw [List.cons_append]
          exact matchWord_head_ne _ _ _ _ (by rw [hp0]; decide) hslash
        · rw [List.cons_append]
          exact matchWord_head_ne_slash _ _ _ _ (by rw [hp0]; decide)
      have hwik : matchWord "wiki".data (cleanParse s).data = none := by
        rcases hl with hl | hl <;> rw [hl]
        · rw [List.cons_append]
          exact matchWord_head_ne _ _ _ _ (by rw [hp0]; decide) hslash
        · rw [List.cons_append]
          exact matchWord_head_ne_slash _ _ _ _ (by rw [hp0]; decide)
      have hnum : matchNumeric (lowerList (cleanParse s).data) = none := by
        rcases hl with hl | hl <;> rw [hl]
        · rw [List.cons_append]
          show matchNumeric (p0.toLower :: lowerList (pre' ++ rest)) = none
          rw [hp0]
          exact matchNumeric_none_head _ _ (by decide) (by decide) (by decide) (by decide)
        · show matchNumeric ('/'.toLower :: lowerList ((p0 :: pre') ++ rest)) = none
          exact matchNumeric_none_head _ _ (by decide) (by decide) (by decide) (by decide)
      show parseCommandClean (cleanParse s).data = _
      unfold parseCommandClean
      dsimp only
      rw [hnum, hgem, hwik, hmw]
      dsimp only
      rw [jsTrim_dropWhile]
  · -- help
    intro pre rest hl hww hb
    have hpre : ∃ p0 pre', pre = p0 :: pre' := by
      cases pre with
      | nil =>
        exfalso
        simp [lowerList] at hww
      | cons p0 pre' => exact ⟨p0, pre', rfl⟩
    obtain ⟨p0, pre', rfl⟩ := hpre
    have hcons : lowerList (p0 :: pre') = p0.toLower :: lowerList pre' := rfl
    have hp0 : p0.toLower = 'h' := by
      rw [hcons] at hww
      injection hww
    have hslash : p0 ≠ '/' := by
      intro hq
      rw [hq] at hp0
      exact absurd hp0 (by decide)
    have hmw : matchWord "help".data (cleanParse s).data = some rest :=
      matchWord_decomp "help" _ _ _ p0 pre' rfl hww hslash hb hl
    have hgem : matchWord "gemini".data (cleanParse s).data = none := by
      rcases hl with hl | hl <;> rw [hl]
      · rw [List.cons_append]
        exact matchWord_head_ne _ _ _ _ (by rw [hp0]; decide) hslash
      · rw [List.cons_append]
        exact matchWord_head_ne_slash _ _ _ _ (by rw [hp0]; decide)
    have hwik : matchWord "wiki".data (cleanParse s).data = none := by
      rcases hl with hl | hl <;> rw [hl]
      · rw [List.cons_append]
        exact matchWord_head_ne _ _ _ _ (by rw [hp0]; decide) hslash
      · rw [List.cons_append]
        exact matchWord_head_ne_slash _ _ _ _ (by rw [hp0]; decide)
    have hcha : matchWord "chatgpt".data (cleanParse s).data = none := by
      rcases hl with hl | hl <;> rw [hl]
      · rw [List.cons_append]
        exact matchWord_head_ne _ _ _ _ (by rw [hp0]; decide) hslash
      · rw [List.cons_append]
        exact matchWord_head_ne_slash _ _ _ _ (by rw [hp0]; decide)
    have hnum : matchNumeric (lowerList (cleanParse s).data) = none := by
      rcases hl with hl | hl <;> rw [hl]
      · rw [List.cons_append]
        show matchNumeric (p0.toLower :: lowerList (pre' ++ rest)) = none
        rw [hp0]
        exact matchNumeric_none_head _ _ (by decide) (by decide) (by decide) (by decide)
      · show matchNumeric ('/'.toLower :: lowerList ((p0 :: pre') ++ rest)) = none
        exact matchNumeric_none_head _ _ (by decide) (by decide) (by decide) (by decide)
    show parseCommandClean (cleanParse s).data = _
    unfold parseCommandClean
    dsimp only
    rw [hnum, hgem, hwik, hcha, hmw]
    rfl
  · -- (3) fallback
    intro hnum hgem hwik hcha hhel
    show parseCommandClean (cleanParse s).data = _
    unfold parseCommandClean
    dsimp only
    rw [hnum, hgem, hwik, hcha, hhel]
    rfl

/-- Witness for C2 (amended) at concrete inputs covering the numeric,
word, help and fallback branches. -/
theorem parseCommand_grammar_witness :
    parseCommand "4 Find Docs" = ⟨"wiki", ⟨jsTrim "find docs".data⟩⟩ ∧
    parseCommand "/Wiki  hello" = ⟨"wiki", ⟨jsTrim " hello".data⟩⟩ ∧
    parseCommand "help me" = ⟨"help", ""⟩ ∧
    parseCommand "hello there" = ⟨"", cleanParse "hello there"⟩ :=
  ⟨(((parseCommand_grammar "4 Find Docs").1 '4' ' ' "find docs".data
      (by decide) (by decide)).2.2.1 rfl),
   (parseCommand_grammar "/Wiki  hello").2.1 "wiki" "Wiki".data " hello".data
     (by decide) (Or.inr (by decide)) (by decide) (by decide),
   (parseCommand_grammar "help me").2.2.1 "help".data " me".data
     (Or.inl (by decide)) (by decide) (by decide),
   (parseCommand_grammar "hello there").2.2.2 (by decide) (by decide) (by decide)
     (by decide) (by decide)⟩

/-! ## Idempotence analysis of the mention cleaning (C9) -/

/-- A character list does not start with whitespace. -/
def noLeadWs : List Char → Bool
  | [] => true
  | c :: _ => !jsWs c

/-- A character list does not end with whitespace. -/
def noTrailWs (l : List Char) : Bool := noLeadWs l.reverse

/-- Every `@` in the list is immediately followed by whitespace or by the end
of the list; such lists are exactly the fixed points of `stripAtMentions`. -/
def atOk : List Char → Bool
  | [] => true
  | c :: rest =>
    if c = '@' then
      match rest with
      | [] => true
      | c2 :: _ => jsWs c2 && atOk rest
    else atOk rest

/-- `stripHtmlMentions` keeps a character other than an opening bracket. -/
theorem stripHtml_cons_ne {c : Char} (hc : c ≠ '<') (rest : List Char) :
    stripHtmlMentions (c :: rest) = c :: stripHtmlMentions rest := by
  unfold stripHtmlMentions
  rw [scanReplace_cons htmlMentionStep_shrinking]
  have hstep : htmlMentionStep c rest = none := by simp [htmlMentionStep, hc]
  rw [hstep]

/-- `stripAtMentions` keeps a character other than `@`. -/
theorem stripAt_cons_ne {c : Char} (hc : c ≠ '@') (rest : List Char) :
    stripAtMentions (c :: rest) = c :: stripAtMentions rest := by
  unfold stripAtMentions
  rw [scanReplace_cons atMentionStep_shrinking]
  have hstep : atMentionStep c rest = none := by simp [atMentionStep, hc]
  rw [hstep]

/-- `stripAtMentions` keeps an `@` that is not followed by a token. -/
theorem stripAt_cons_at_none {rest : List Char}
    (htk : rest.takeWhile (fun c => !jsWs c) = []) :
    stripAtMentions ('@' :: rest) = '@' :: stripAtMentions rest := by
  unfold stripAtMentions
  rw [scanReplace_cons atMentionStep_shrinking]
  have hstep : atMentionStep '@' rest = none := by simp [atMentionStep, htk]
  rw [hstep]

/-- `stripAtMentions` removes an `@`-token together with the whitespace run
after it. -/
theorem stripAt_cons_at_some {rest : List Char}
    (htk : rest.takeWhile (fun c => !jsWs c) ≠ []) :
    stripAtMentions ('@' :: rest) =
      stripAtMentions ((rest.dropWhile (fun c => !jsWs c)).dropWhile jsWs) := by
  unfold stripAtMentions
  rw [scanReplace_cons atMentionStep_shrinking]
  have hstep : atMentionStep '@' rest =
      some ([], (rest.dropWhile (fun c => !jsWs c)).dropWhile jsWs) := by
    simp [atMentionStep, htk]
  rw [hstep]
  rfl

/-- `collapseWs` replaces a whitespace run by one space. -/
theorem collapse_cons_ws {c : Char} (hc : jsWs c = true) (rest : List Char) :
    collapseWs (c :: rest) = ' ' :: collapseWs (rest.dropWhile jsWs) := by
  unfold collapseWs
  rw [scanReplace_cons wsRunStep_shrinking]
  have hstep : wsRunStep c rest = some ([' '], rest.dropWhile jsWs) := by
    simp [wsRunStep, hc]
  rw [hstep]
  rfl

/-- `collapseWs` keeps a non-whitespace character. -/
theorem collapse_cons_nws {c : Char} (hc : jsWs c = false) (rest : List Char) :
    collapseWs (c :: rest) = c :: collapseWs rest := by
  unfold collapseWs
  rw [scanReplace_cons wsRunStep_shrinking]
  have hstep : wsRunStep c rest = none := by simp [wsRunStep, hc]
  rw [hstep]

/-- `dropWhile jsWs` leaves no leading whitespace. -/
theorem noLeadWs_dropWhile (l : List Char) : noLeadWs (l.dropWhile jsWs) = true := by
  induction l with
  | nil => rfl
  | cons c t ih =>
    rw [List.dropWhile_cons]
    cases hws : jsWs c with
    | true => simpa [hws] using ih
    | false => simp [hws, noLeadWs]

/-- `dropWhile jsWs` is the identity on lists with no leading whitespace. -/
theorem dropWhile_eq_self_of_noLead {l : List Char} (h : noLeadWs l = true) :
    l.dropWhile jsWs = l := by
  cases l with
  | nil => rfl
  | cons c t =>
    simp only [noLeadWs, Bool.not_eq_true'] at h
    rw [List.dropWhile_cons, h]
    simp

/-- The no-leading-whitespace property restricts along list prefixes. -/
theorem noLeadWs_mono {l1 l2 : List Char} (h : l1 <+: l2)
    (h2 : noLeadWs l2 = true) : noLeadWs l1 = true := by
  cases l1 with
  | nil => rfl
  | cons c t =>
    obtain ⟨s, hs⟩ := h
    subst hs
    simpa [noLeadWs] using h2

/-- `jsTrim` leaves no leading whitespace. -/
theorem jsTrim_noLead (l : List Char) : noLeadWs (jsTrim l) = true := by
  unfold jsTrim
  have hpre : ((l.dropWhile jsWs).reverse.dropWhile jsWs).reverse <+: l.dropWhile jsWs := by
    have hsuf := (List.dropWhile_suffix jsWs :
      (l.dropWhile jsWs).reverse.dropWhile jsWs <:+ (l.dropWhile jsWs).reverse).reverse
    rwa [List.reverse_reverse] at hsuf
  exact noLeadWs_mono hpre (noLeadWs_dropWhile l)

/-- `jsTrim` leaves no trailing whitespace. -/
theorem jsTrim_noTrail (l : List Char) : noTrailWs (jsTrim l) = true := by
  unfold noTrailWs jsTrim
  rw [List.reverse_reverse]
  exact noLeadWs_dropWhile _

/-- `jsTrim` is the identity on lists with no edge whitespace. -/
theorem jsTrim_eq_self {l : List Char} (h1 : noLeadWs l = true)
    (h2 : noTrailWs l = true) : jsTrim l = l := by
  have h2' : noLeadWs l.reverse = true := h2
  unfold jsTrim
  rw [dropWhile_eq_self_of_noLead h1, dropWhile_eq_self_of_noLead h2',
    List.reverse_reverse]

/-- Characters of `jsTrim l` come from `l`. -/
theorem jsTrim_subset {x : Char} {l : List Char} (h : x ∈ jsTrim l) : x ∈ l := by
  unfold jsTrim at h
  rw [List.mem_reverse] at h
  have h2 : x ∈ (l.dropWhile jsWs).reverse := (List.dropWhile_suffix jsWs).subset h
  rw [List.mem_reverse] at h2
  exact (List.dropWhile_suffix jsWs).subset h2

/-- `stripHtmlMentions` is the identity on bracket-free lists. -/
theorem stripHtmlMentions_id {l : List Char} (h : ∀ x ∈ l, x ≠ '<') :
    stripHtmlMentions l = l := by
  induction l with
  | nil => rfl
  | cons c rest ih =>
    rw [stripHtml_cons_ne (h c (List.mem_cons_self c rest)) rest,
      ih fun x hx => h x (List.mem_cons_of_mem c hx)]

/-- Consing onto a non-empty list does not change its last character. -/
theorem noTrailWs_cons {X : List Char} (c : Char) (hX : X ≠ []) :
    noTrailWs (c :: X) = noTrailWs X := by
  obtain ⟨a, t, hat⟩ : ∃ a t, X.reverse = a :: t := by
    cases hXr : X.reverse with
    | nil => exact absurd (List.reverse_eq_nil_iff.mp hXr) hX
    | cons a t => exact ⟨a, t, rfl⟩
  unfold noTrailWs
  rw [List.reverse_cons, hat]
  rfl

/-- The last character of a singleton. -/
theorem noTrailWs_singleton (c : Char) : noTrailWs [c] = !jsWs c := rfl

/-- The no-trailing-whitespace property restricts along non-empty suffixes. -/
theorem noTrailWs_suffix {l1 l2 : List Char} (h : l1 <:+ l2) (hne : l1 ≠ [])
    (h2 : noTrailWs l2 = true) : noTrailWs l1 = true := by
  obtain ⟨t, ht⟩ := h
  subst ht
  obtain ⟨a, t0, hat⟩ : ∃ a t0, l1.reverse = a :: t0 := by
    cases hXr : l1.reverse with
    | nil => exact absurd (List.reverse_eq_nil_iff.mp hXr) hne
    | cons a t0 => exact ⟨a, t0, rfl⟩
  unfold noTrailWs at h2 ⊢
  rw [List.reverse_append, hat] at h2
  rw [hat]
  simpa [noLeadWs] using h2

/-- A non-empty all-whitespace list ends in whitespace. -/
theorem noTrailWs_all_ws {l : List Char} (hne : l ≠ [])
    (hall : ∀ x ∈ l, jsWs x = true) : noTrailWs l = false := by
  obtain ⟨a, t0, hat⟩ : ∃ a t0, l.reverse = a :: t0 := by
    cases hXr : l.reverse with
    | nil => exact absurd (List.reverse_eq_nil_iff.mp hXr) hne
    | cons a t0 => exact ⟨a, t0, rfl⟩
  have hmem : a ∈ l := by
    rw [← List.mem_reverse, hat]
    exact List.mem_cons_self a t0
  unfold noTrailWs
  rw [hat]
  simp [noLeadWs, hall a hmem]

/-- `atOk` ignores a head other than `@`. -/
theorem atOk_cons_ne {c : Char} (hc : c ≠ '@') (l : List Char) :
    atOk (c :: l) = atOk l := by
  simp [atOk, hc]

/-- `atOk` at an `@` followed by at least one character. -/
theorem atOk_at_cons (c2 : Char) (rest : List Char) :
    atOk ('@' :: c2 :: rest) = (jsWs c2 && atOk (c2 :: rest)) := by
  simp [atOk]

/-- `atOk` restricts to the tail. -/
theorem atOk_tail {c : Char} {l : List Char} (h : atOk (c :: l) = true) :
    atOk l = true := by
  by_cases hc : c = '@'
  · subst hc
    cases l with
    | nil => rfl
    | cons c2 t =>
      rw [atOk_at_cons] at h
      exact (Bool.and_eq_true_iff.mp h).2
  · rwa [atOk_cons_ne hc] at h

/-- `atOk` is preserved by `dropWhile jsWs`. -/
theorem atOk_dropWhile {l : List Char} (h : atOk l = true) :
    atOk (l.dropWhile jsWs) = true := by
  induction l with
  | nil => exact h
  | cons c t ih =>
    rw [List.dropWhile_cons]
    cases hws : jsWs c with
    | true => simpa [hws] using ih (atOk_tail h)
    | false => simpa [hws] using h

/-- `atOk` restricts along list prefixes: cutting a list after any position
can only turn an `@` into a final `@`, which `atOk` allows. -/
theorem atOk_pref : ∀ l1 l2 : List Char, l1 <+: l2 → atOk l2 = true → atOk l1 = true := by
  intro l1
  induction l1 with
  | nil => intro l2 _ _; rfl
  | cons c t ih =>
    intro l2 hpre h2
    obtain ⟨s, hs⟩ := hpre
    subst hs
    by_cases hc : c = '@'
    · subst hc
      cases t with
      | nil => decide
      | cons c2 t2 =>
        have h2' : atOk ('@' :: c2 :: (t2 ++ s)) = true := h2
        rw [atOk_at_cons] at h2'
        rw [atOk_at_cons]
        refine Bool.and_eq_true_iff.mpr ⟨(Bool.and_eq_true_iff.mp h2').1, ?_⟩
        exact ih (c2 :: (t2 ++ s)) ⟨s, rfl⟩ (Bool.and_eq_true_iff.mp h2').2
    · have h2' : atOk (c :: (t ++ s)) = true := h2
      rw [atOk_cons_ne hc] at h2'
      rw [atOk_cons_ne hc]
      exact ih (t ++ s) ⟨s, rfl⟩ h2'

/-- `atOk` is preserved by `jsTrim`. -/
theorem atOk_jsTrim {l : List Char} (h : atOk l = true) : atOk (jsTrim l) = true := by
  unfold jsTrim
  have hpre : ((l.dropWhile jsWs).reverse.dropWhile jsWs).reverse <+: l.dropWhile jsWs := by
    have hsuf := (List.dropWhile_suffix jsWs :
      (l.dropWhile jsWs).reverse.dropWhile jsWs <:+ (l.dropWhile jsWs).reverse).reverse
    rwa [List.reverse_reverse] at hsuf
  exact atOk_pref _ _ hpre (atOk_dropWhile h)

/-- Characters of `stripAtMentions l` come from `l` (fuel induction). -/
theorem stripAt_subset_fuel (x : Char) :
    ∀ n l, l.length ≤ n → x ∈ stripAtMentions l → x ∈ l := by
  intro n
  induction n with
  | zero =>
    intro l hl hm
    have hnil : l = [] := List.eq_nil_of_length_eq_zero (Nat.le_zero.mp hl)
    subst hnil
    simpa [stripAtMentions] using hm
  | succ n ih =>
    intro l hl hm
    match l, hl, hm with
    | [], _, hm => simpa [stripAtMentions] using hm
    | c :: rest, hl, hm =>
      have hr : rest.length ≤ n := by
        simp only [List.length_cons] at hl
        omega
      by_cases hc : c = '@'
      · subst hc
        cases htk : rest.takeWhile (fun c => !jsWs c) with
        | nil =>
          rw [stripAt_cons_at_none htk] at hm
          rcases List.mem_cons.mp hm with he | hm2
          · exact he ▸ List.mem_cons_self _ _
          · exact List.mem_cons_of_mem _ (ih rest hr hm2)
        | cons a t =>
          have htk' : rest.takeWhile (fun c => !jsWs c) ≠ [] := by
            rw [htk]
            exact List.cons_ne_nil a t
          rw [stripAt_cons_at_some htk'] at hm
          have hsuf : (rest.dropWhile (fun c => !jsWs c)).dropWhile jsWs <:+ rest :=
            (List.dropWhile_suffix jsWs).trans (List.dropWhile_suffix (fun c => !jsWs c))
          have hm2 := ih _ (Nat.le_trans hsuf.length_le hr) hm
          exact List.mem_cons_of_mem _ (hsuf.subset hm2)
      · rw [stripAt_cons_ne hc] at hm
        rcases List.mem_cons.mp hm with he | hm2
        · exact he ▸ List.mem_cons_self _ _
        · exact List.mem_cons_of_mem _ (ih rest hr hm2)

/-- Characters of `collapseWs l` are spaces or come from `l` (fuel). -/
theorem collapse_subset_fuel (x : Char) :
    ∀ n l, l.length ≤ n → x ∈ collapseWs l → x = ' ' ∨ x ∈ l := by
  intro n
  induction n with
  | zero =>
    intro l hl hm
    have hnil : l = [] := List.eq_nil_of_length_eq_zero (Nat.le_zero.mp hl)
    subst hnil
    simp [collapseWs] at hm
  | succ n ih =>
    intro l hl hm
    match l, hl, hm with
    | [], _, hm => simp [collapseWs] at hm
    | c :: rest, hl, hm =>
      have hr : rest.length ≤ n := by
        simp only [List.length_cons] at hl
        omega
      cases hws : jsWs c with
      | true =>
        rw [collapse_cons_ws hws] at hm
        rcases List.mem_cons.mp hm with he | hm2
        · exact Or.inl he
        · have hlen : (rest.dropWhile jsWs).length ≤ n :=
            Nat.le_trans (dropWhile_len_le jsWs rest) hr
          rcases ih _ hlen hm2 with he | hm3
          · exact Or.inl he
          · exact Or.inr (List.mem_cons_of_mem _ ((List.dropWhile_suffix jsWs).subset hm3))
      | false =>
        rw [collapse_cons_nws hws] at hm
        rcases List.mem_cons.mp hm with he | hm2
        · exact Or.inr (he ▸ List.mem_cons_self _ _)
        · rcases ih rest hr hm2 with he | hm3
          · exact Or.inl he
          · exact Or.inr (List.mem_cons_of_mem _ hm3)

/-- The output of `stripAtMentions` satisfies `atOk` (fuel induction). -/
theorem stripAt_atOk_fuel :
    ∀ n l, l.length ≤ n → atOk (stripAtMentions l) = true := by
  intro n
  induction n with
  | zero =>
    intro l hl
    have hnil : l = [] := List.eq_nil_of_length_eq_zero (Nat.le_zero.mp hl)
    subst hnil
    rfl
  | succ n ih =>
    intro l hl
    match l, hl with
    | [], _ => rfl
    | c :: rest, hl =>
      have hr : rest.length ≤ n := by
        simp only [List.length_cons] at hl
        omega
      by_cases hc : c = '@'
      · subst hc
        cases htk : rest.takeWhile (fun c => !jsWs c) with
        | cons a t =>
          have htk' : rest.takeWhile (fun c => !jsWs c) ≠ [] := by
            rw [htk]
            exact List.cons_ne_nil a t
          rw [stripAt_cons_at_some htk']
          have hsuf : (rest.dropWhile (fun c => !jsWs c)).dropWhile jsWs <:+ rest :=
            (List.dropWhile_suffix jsWs).trans (List.dropWhile_suffix (fun c => !jsWs c))
          exact ih _ (Nat.le_trans hsuf.length_le hr)
        | nil =>
          rw [stripAt_cons_at_none htk]
          match rest, htk, hr with
          | [], _, _ => decide
          | w :: rest2, htk, hr =>
            have hwsw : jsWs w = true := by
              cases hjw : jsWs w with
              | true => rfl
              | false =>
                rw [List.takeWhile_cons, hjw] at htk
                simp at htk
            have hw_ne : w ≠ '@' := by
              intro he
              subst he
              exact absurd hwsw (by decide)
            have hws2 := ih (w :: rest2) hr
            rw [stripAt_cons_ne hw_ne] at hws2
            rw [stripAt_cons_ne hw_ne, atOk_at_cons]
            exact Bool.and_eq_true_iff.mpr ⟨hwsw, hws2⟩
      · rw [stripAt_cons_ne hc, atOk_cons_ne hc]
        exact ih rest hr

/-- `stripAtMentions` is the identity on `atOk` lists (fuel induction). -/
theorem stripAt_id_fuel :
    ∀ n l, l.length ≤ n → atOk l = true → stripAtMentions l = l := by
  intro n
  induction n with
  | zero =>
    intro l hl _
    have hnil : l = [] := List.eq_nil_of_length_eq_zero (Nat.le_zero.mp hl)
    subst hnil
    rfl
  | succ n ih =>
    intro l hl h
    match l, hl, h with
    | [], _, _ => rfl
    | c :: rest, hl, h =>
      have hr : rest.length ≤ n := by
        simp only [List.length_cons] at hl
        omega
      by_cases hc : c = '@'
      · subst hc
        have htk : rest.takeWhile (fun c => !jsWs c) = [] := by
          match rest, h with
          | [], _ => rfl
          | c2 :: t, h =>
            have hws2 : jsWs c2 = true := by
              rw [atOk_at_cons] at h
              exact (Bool.and_eq_true_iff.mp h).1
            rw [List.takeWhile_cons, hws2]
            simp
        rw [stripAt_cons_at_none htk, ih rest hr (atOk_tail h)]
      · rw [stripAt_cons_ne hc, ih rest hr (atOk_tail h)]

/-- `atOk` is preserved by `collapseWs` (fuel induction). -/
theorem collapse_atOk_fuel :
    ∀ n l, l.length ≤ n → atOk l = true → atOk (collapseWs l) = true := by
  intro n
  induction n with
  | zero =>
    intro l hl _
    have hnil : l = [] := List.eq_nil_of_length_eq_zero (Nat.le_zero.mp hl)
    subst hnil
    rfl
  | succ n ih =>
    intro l hl h
    match l, hl, h with
    | [], _, _ => rfl
    | c :: rest, hl, h =>
      have hr : rest.length ≤ n := by
        simp only [List.length_cons] at hl
        omega
      cases hws : jsWs c with
      | true =>
        rw [collapse_cons_ws hws, atOk_cons_ne (show (' ' : Char) ≠ '@' by decide)]
        exact ih _ (Nat.le_trans (dropWhile_len_le jsWs rest) hr)
          (atOk_dropWhile (atOk_tail h))
      | false =>
        rw [collapse_cons_nws hws]
        by_cases hc : c = '@'
        · subst hc
          match rest, hr, h with
          | [], _, _ => decide
          | w :: rest2, hr, h =>
            have hww : jsWs w = true := by
              rw [atOk_at_cons] at h
              exact (Bool.and_eq_true_iff.mp h).1
            have hok : atOk (w :: rest2) = true := by
              rw [atOk_at_cons] at h
              exact (Bool.and_eq_true_iff.mp h).2
            rw [collapse_cons_ws hww, atOk_at_cons]
            refine Bool.and_eq_true_iff.mpr ⟨by decide, ?_⟩
            rw [atOk_cons_ne (show (' ' : Char) ≠ '@' by decide)]
            have hlen : (rest2.dropWhile jsWs).length ≤ n := by
              have hd := dropWhile_len_le jsWs rest2
              simp only [List.length_cons] at hr
              omega
            exact ih _ hlen (atOk_dropWhile (atOk_tail hok))
        · rw [atOk_cons_ne hc]
          exact ih rest hr (atOk_tail h)

/-- `collapseWs` preserves a non-whitespace head. -/
theorem collapse_noLead {l : List Char} (h : noLeadWs l = true) :
    noLeadWs (collapseWs l) = true := by
  cases l with
  | nil => rfl
  | cons c rest =>
    have hc : jsWs c = false := by
      simpa [noLeadWs, Bool.not_eq_true'] using h
    rw [collapse_cons_nws hc]
    simpa [noLeadWs] using h

/-- `collapseWs` of a non-empty list is non-empty. -/
theorem collapse_ne_nil {l : List Char} (h : l ≠ []) : collapseWs l ≠ [] := by
  match l, h with
  | c :: rest, _ =>
    cases hws : jsWs c with
    | true =>
      rw [collapse_cons_ws hws]
      exact List.cons_ne_nil _ _
    | false =>
      rw [collapse_cons_nws hws]
      exact List.cons_ne_nil _ _

/-- `collapseWs` preserves a non-whitespace last character (fuel). -/
theorem collapse_noTrail_fuel :
    ∀ n l, l.length ≤ n → noTrailWs l = true → noTrailWs (collapseWs l) = true := by
  intro n
  induction n with
  | zero =>
    intro l hl _
    have hnil : l = [] := List.eq_nil_of_length_eq_zero (Nat.le_zero.mp hl)
    subst hnil
    rfl
  | succ n ih =>
    intro l hl h
    match l, hl, h with
    | [], _, _ => rfl
    | c :: rest, hl, h =>
      have hr : rest.length ≤ n := by
        simp only [List.length_cons] at hl
        omega
      cases hws : jsWs c with
      | true =>
        rw [collapse_cons_ws hws]
        have hr2ne : rest.dropWhile jsWs ≠ [] := by
          intro hnil
          have hall := List.dropWhile_eq_nil_iff.mp hnil
          have hallc : ∀ x ∈ c :: rest, jsWs x = true := by
            intro x hx
            rcases List.mem_cons.mp hx with he | hm
            · exact he ▸ hws
            · exact hall x hm
          have hfalse := noTrailWs_all_ws (List.cons_ne_nil c rest) hallc
          rw [h] at hfalse
          exact Bool.noConfusion hfalse
        have hrne : rest ≠ [] := by
          intro he
          subst he
          exact hr2ne rfl
        have hnt_rest : noTrailWs rest = true := by
          rw [noTrailWs_cons c hrne] at h
          exact h
        have hnt_r2 : noTrailWs (rest.dropWhile jsWs) = true :=
          noTrailWs_suffix (List.dropWhile_suffix jsWs) hr2ne hnt_rest
        have hlen : (rest.dropWhile jsWs).length ≤ n :=
          Nat.le_trans (dropWhile_len_le jsWs rest) hr
        have hCne : collapseWs (rest.dropWhile jsWs) ≠ [] := collapse_ne_nil hr2ne
        rw [noTrailWs_cons ' ' hCne]
        exact ih _ hlen hnt_r2
      | false =>
        rw [collapse_cons_nws hws]
        match rest, hr, h with
        | [], _, h =>
          show noTrailWs [c] = true
          rw [noTrailWs_singleton, hws]
          rfl
        | r1 :: rest2, hr, h =>
          have hrne : (r1 :: rest2) ≠ [] := List.cons_ne_nil _ _
          have hnt_rest : noTrailWs (r1 :: rest2) = true := by
            rw [noTrailWs_cons c hrne] at h
            exact h
          have hCne : collapseWs (r1 :: rest2) ≠ [] := collapse_ne_nil hrne
          rw [noTrailWs_cons c hCne]
          exact ih (r1 :: rest2) hr hnt_rest

/-- `collapseWs` is idempotent (fuel induction). -/
theorem collapse_idem_fuel :
    ∀ n l, l.length ≤ n → collapseWs (collapseWs l) = collapseWs l := by
  intro n
  induction n with
  | zero =>
    intro l hl
    have hnil : l = [] := List.eq_nil_of_length_eq_zero (Nat.le_zero.mp hl)
    subst hnil
    rfl
  | succ n ih =>
    intro l hl
    match l, hl with
    | [], _ => rfl
    | c :: rest, hl =>
      have hr : rest.length ≤ n := by
        simp only [List.length_cons] at hl
        omega
      cases hws : jsWs c with
      | true =>
        rw [collapse_cons_ws hws, collapse_cons_ws (show jsWs ' ' = true by decide)]
        rw [dropWhile_eq_self_of_noLead (collapse_noLead (noLeadWs_dropWhile rest))]
        rw [ih _ (Nat.le_trans (dropWhile_len_le jsWs rest) hr)]
      | false =>
        rw [collapse_cons_nws hws, collapse_cons_nws hws, ih rest hr]

/-- Characters of `stripAtMentions l` come from `l`. -/
theorem stripAtMentions_subset {x : Char} {l : List Char}
    (h : x ∈ stripAtMentions l) : x ∈ l :=
  stripAt_subset_fuel x l.length l (Nat.le_refl _) h

/-- Characters of `collapseWs l` are spaces or come from `l`. -/
theorem collapseWs_subset {x : Char} {l : List Char}
    (h : x ∈ collapseWs l) : x = ' ' ∨ x ∈ l :=
  collapse_subset_fuel x l.length l (Nat.le_refl _) h

/-- The output of `stripAtMentions` satisfies `atOk`. -/
theorem stripAtMentions_atOk (l : List Char) : atOk (stripAtMentions l) = true :=
  stripAt_atOk_fuel l.length l (Nat.le_refl _)

/-- `stripAtMentions` is the identity on `atOk` lists. -/
theorem stripAtMentions_id {l : List Char} (h : atOk l = true) :
    stripAtMentions l = l :=
  stripAt_id_fuel l.length l (Nat.le_refl _) h

/-- `atOk` is preserved by `collapseWs`. -/
theorem collapseWs_atOk {l : List Char} (h : atOk l = true) :
    atOk (collapseWs l) = true :=
  collapse_atOk_fuel l.length l (Nat.le_refl _) h

/-- `collapseWs` preserves a non-whitespace last character. -/
theorem collapseWs_noTrail {l : List Char} (h : noTrailWs l = true) :
    noTrailWs (collapseWs l) = true :=
  collapse_noTrail_fuel l.length l (Nat.le_refl _) h

/-- `collapseWs` is idempotent. -/
theorem collapseWs_idem (l : List Char) : collapseWs (collapseWs l) = collapseWs l :=
  collapse_idem_fuel l.length l (Nat.le_refl _)

/-- The character list computed by the `parseCommand` cleaning. -/
theorem cleanParse_data (s : String) :
    (cleanParse s).data =
      collapseWs (jsTrim (stripAtMentions (stripHtmlMentions s.data))) := rfl

/-- The character list computed by the message-event cleaning. -/
theorem cleanMessageText_data (s : String) :
    (cleanMessageText s).data =
      jsTrim (stripAtMentions (stripHtmlMentions s.data)) := rfl

/-- C9 counterexample: the cleaning pipeline is *not* idempotent.  Removing a
bracketed mention can splice the surrounding text into a new bracketed
mention that only a second pass removes: on the input `<<@a>@ >` the first
application of the `parseCommand` cleaning yields `<@ >`, and applying the
cleaning to that output yields the empty string. -/
theorem cleanParse_not_idempotent :
    cleanParse "<<@a>@ >" = "<@ >" ∧
    cleanParse (cleanParse "<<@a>@ >") = "" ∧
    cleanParse (cleanParse "<<@a>@ >") ≠ cleanParse "<<@a>@ >" := by
  decide

/-- C9 (amended): on every input containing no `<` character, both the
message-event cleaning of `handleMessageEvent` (strip bracketed mentions,
strip bare `@`-mentions, trim) and the `parseCommand` cleaning (the same
steps followed by collapsing each whitespace run to a single space) are
idempotent: applying the pipeline to its own output returns that output
unchanged. -/
theorem cleaning_idempotent_no_angle (s : String)
    (h : ∀ x ∈ s.data, x ≠ '<') :
    cleanParse (cleanParse s) = cleanParse s ∧
    cleanMessageText (cleanMessageText s) = cleanMessageText s := by
  have hH : stripHtmlMentions s.data = s.data := stripHtmlMentions_id h
  have hyO : atOk (stripAtMentions s.data) = true := stripAtMentions_atOk s.data
  have hzO : atOk (jsTrim (stripAtMentions s.data)) = true := atOk_jsTrim hyO
  have hznl : noLeadWs (jsTrim (stripAtMentions s.data)) = true := jsTrim_noLead _
  have hznt : noTrailWs (jsTrim (stripAtMentions s.data)) = true := jsTrim_noTrail _
  have hOO : atOk (collapseWs (jsTrim (stripAtMentions s.data))) = true :=
    collapseWs_atOk hzO
  have hOnl : noLeadWs (collapseWs (jsTrim (stripAtMentions s.data))) = true :=
    collapse_noLead hznl
  have hOnt : noTrailWs (collapseWs (jsTrim (stripAtMentions s.data))) = true :=
    collapseWs_noTrail hznt
  have hzlt : ∀ x ∈ jsTrim (stripAtMentions s.data), x ≠ '<' := fun x hx =>
    h x (stripAtMentions_subset (jsTrim_subset hx))
  have hOlt : ∀ x ∈ collapseWs (jsTrim (stripAtMentions s.data)), x ≠ '<' := by
    intro x hx
    rcases collapseWs_subset hx with he | hm
    · subst he
      decide
    · exact hzlt x hm
  constructor
  · apply String.ext
    rw [cleanParse_data (cleanParse s), cleanParse_data s, hH,
      stripHtmlMentions_id hOlt, stripAtMentions_id hOO,
      jsTrim_eq_self hOnl hOnt, collapseWs_idem]
  · apply String.ext
    rw [cleanMessageText_data (cleanMessageText s), cleanMessageText_data s, hH,
      stripHtmlMentions_id hzlt, stripAtMentions_id hzO,
      jsTrim_eq_self hznl hznt]

/-- Witness for C9 (amended) at a concrete bracket-free input containing a
bare mention and redundant whitespace. -/
theorem cleaning_idempotent_no_angle_witness :
    cleanParse (cleanParse " hi  @bob  there ") = cleanParse " hi  @bob  there " ∧
    cleanMessageText (cleanMessageText " hi  @bob  there ") =
      cleanMessageText " hi  @bob  there " :=
  cleaning_idempotent_no_angle " hi  @bob  there " (by decide)

end ChatBot
